import Mathlib

/-!
# QuantumGate per-peer send queues

A shallow embedding of `QuantumGateLib/Core/Peer/PeerSendQueues.cpp`
(`AddMessage`, `AddMessageImpl`, `RemoveMessage`, `GetMessages`,
`GetExpeditedMessages`) and the properties of the send scheduler proved
about it.

Conventions of the embedding.

* A `Buffer` is the list of its bytes; `GetSize` is the length.  Sizes are
  lengths of buffers that exist in memory, so the sums the code forms never
  leave the range of `Size` and are taken in `Nat`.
* The three queues are lists with the front at the head; `Push` appends at
  the back, `Pop` drops the head.
* A member function that mutates the object takes the old `PeerSendQueues`
  and returns the new one.
* The steady clock is an input: every call receives the reading `now` that
  `Util::GetCurrentSteadyTime()` gives during that call.
* What the translation unit uses but does not define (the frame limit, the
  per-class limits, `Message::Write`) is collected in `Env`.
-/

namespace QuantumGate

set_option maxRecDepth 20000

/-- Byte container `Buffer`. -/
abbrev Buffer := List Nat

/-- Opaque key handle `Crypto::SymmetricKeyData`, only passed on to `Message::Write`. -/
abbrev SymmetricKeyData := Nat

/-- Readings of the steady clock, in milliseconds. -/
abbrev SteadyTime := Int

/-- Durations `std::chrono::milliseconds` (signed). -/
abbrev Milliseconds := Int

/-- The message types the switches of `AddMessage` and `RemoveMessage` name, and
every other type (`Other`), which both switches send to their `default` label. -/
inductive MessageType where
  | ExtenderCommunication
  | Noise
  | RelayData
  | Other (code : Nat)
deriving DecidableEq, Repr

/-- The classes `MessageRateLimits::Type`. -/
inductive RateLimitType where
  | ExtenderCommunication
  | Noise
  | RelayData
  | Default
deriving DecidableEq, Repr

/-- The values of `SendParameters::PriorityOption`. -/
inductive PriorityOption where
  | Normal
  | Expedited
  | Delayed
deriving DecidableEq, Repr

/-- The result codes `AddMessage` returns. -/
inductive ResultCode where
  | Succeeded
  | PeerSendBufferFull
  | OutOfMemory
deriving DecidableEq, Repr

/-- A queued `Message`: its type and its data. -/
structure Message where
  msgType : MessageType
  msgData : Buffer
deriving DecidableEq, Repr

/-- Accessor `Message::GetMessageType`. -/
def Message.GetMessageType (msg : Message) : MessageType := msg.msgType

/-- Accessor `Message::GetMessageData`. -/
def Message.GetMessageData (msg : Message) : Buffer := msg.msgData

/-- Size of a buffer, `Buffer::GetSize`. -/
def GetSize (b : Buffer) : Nat := b.length

/-- The aggregate `DelayedMessage{ msg, GetCurrentSteadyTime(), delay }` pushed at line 47. -/
structure DelayedMessage where
  Message : QuantumGate.Message
  EnqueueTime : SteadyTime
  Delay : Milliseconds
deriving DecidableEq, Repr

/-- Modelled from the spec: `DelayedMessage::IsTime` (declared in the header, which
is not among the sources).  Section 3: `ready_at = enqueue_time + delay` and
`is_ready(now)` returns `now ≥ ready_at`. -/
def DelayedMessage.IsTime (d : DelayedMessage) (now : SteadyTime) : Bool :=
  decide (d.EnqueueTime + d.Delay ≤ now)

/-- The current byte count of each class, the mutable part of `MessageRateLimits`. -/
structure MessageRateLimits where
  ExtenderCommunication : Nat
  Noise : Nat
  RelayData : Nat
  Default : Nat
deriving DecidableEq, Repr

/-- Counter of one class. -/
def MessageRateLimits.current (rl : MessageRateLimits) : RateLimitType → Nat
  | .ExtenderCommunication => rl.ExtenderCommunication
  | .Noise => rl.Noise
  | .RelayData => rl.RelayData
  | .Default => rl.Default

/-- Overwrite the counter of one class. -/
def MessageRateLimits.setCurrent (rl : MessageRateLimits) (t : RateLimitType) (v : Nat) :
    MessageRateLimits :=
  match t with
  | .ExtenderCommunication => { rl with ExtenderCommunication := v }
  | .Noise => { rl with Noise := v }
  | .RelayData => { rl with RelayData := v }
  | .Default => { rl with Default := v }

/-- What `PeerSendQueues.cpp` takes from the rest of the library. -/
structure Env where
  /-- The constant `MessageTransport::MaxMessageDataSize`. -/
  MaxMessageDataSize : Nat
  /-- The limit of each class of `MessageRateLimits`. -/
  MaxBytes : RateLimitType → Nat
  /-- The call `msg.Write(buffer, symkey)`: the returned flag and the content of
  the buffer argument after the call. -/
  Write : Message → Buffer → SymmetricKeyData → Bool × Buffer

/-- Modelled from the spec: `MessageRateLimits::CanAdd<type>` (header not among the
sources).  Section 4.1: true iff `current_bytes[class] + size ≤ max_bytes[class]`. -/
def MessageRateLimits.CanAdd (env : Env) (rl : MessageRateLimits) (t : RateLimitType)
    (num : Nat) : Bool :=
  decide (rl.current t + num ≤ env.MaxBytes t)

/-- Modelled from the spec: `MessageRateLimits::Add<type>` (header not among the
sources).  Section 4.1: increments `current_bytes[class]` by the size. -/
def MessageRateLimits.Add (rl : MessageRateLimits) (t : RateLimitType) (num : Nat) :
    MessageRateLimits :=
  rl.setCurrent t (rl.current t + num)

/-- Modelled from the spec: `MessageRateLimits::Subtract<type>` (header not among the
sources).  Section 4.1: precondition `current_bytes[class] ≥ size`; decrements.
Outside the precondition the spec fixes no result; the subtraction here is the
one of `Nat`. -/
def MessageRateLimits.Subtract (rl : MessageRateLimits) (t : RateLimitType) (num : Nat) :
    MessageRateLimits :=
  rl.setCurrent t (rl.current t - num)

/-- The object `PeerSendQueues`: three queues and the rate limits. -/
structure PeerSendQueues where
  m_NormalQueue : List Message
  m_ExpeditedQueue : List Message
  m_DelayedQueue : List DelayedMessage
  m_RateLimits : MessageRateLimits
deriving DecidableEq, Repr

/-- A freshly constructed scheduler: empty queues, all counters zero. -/
def PeerSendQueues.empty : PeerSendQueues :=
  ⟨[], [], [], ⟨0, 0, 0, 0⟩⟩

/-- `AddMessageImpl<type>` (lines 25-64).  `pushOk = false` stands for the `Push`
throwing, which the `catch (...)` turns into `OutOfMemory`. -/
def AddMessageImpl (env : Env) (type : RateLimitType) (self : PeerSendQueues) (msg : Message)
    (priority : PriorityOption) (delay : Milliseconds) (now : SteadyTime) (pushOk : Bool) :
    ResultCode × PeerSendQueues :=
  let msg_size := GetSize msg.GetMessageData
  if !self.m_RateLimits.CanAdd env type msg_size then
    (ResultCode.PeerSendBufferFull, self)
  else if !pushOk then
    (ResultCode.OutOfMemory, self)
  else
    let pushed : PeerSendQueues :=
      match priority with
      | .Normal => { self with m_NormalQueue := self.m_NormalQueue ++ [msg] }
      | .Expedited => { self with m_ExpeditedQueue := self.m_ExpeditedQueue ++ [msg] }
      | .Delayed => { self with m_DelayedQueue := self.m_DelayedQueue ++ [⟨msg, now, delay⟩] }
    (ResultCode.Succeeded, { pushed with m_RateLimits := pushed.m_RateLimits.Add type msg_size })

/-- `AddMessage` (lines 9-23): the switch on the message type. -/
def AddMessage (env : Env) (self : PeerSendQueues) (msg : Message)
    (priority : PriorityOption) (delay : Milliseconds) (now : SteadyTime) (pushOk : Bool) :
    ResultCode × PeerSendQueues :=
  match msg.GetMessageType with
  | .ExtenderCommunication =>
    AddMessageImpl env .ExtenderCommunication self msg priority delay now pushOk
  | .Noise => AddMessageImpl env .Noise self msg priority delay now pushOk
  | .RelayData => AddMessageImpl env .RelayData self msg priority delay now pushOk
  | _ => AddMessageImpl env .Default self msg priority delay now pushOk

/-- `RemoveMessage<T>` (lines 66-101).  `view` is the `if constexpr` choice between
`queue.Front()` and `queue.Front().Message`.  It returns the queue after `Pop` and
the rate limits after the switch.  The callers only call it on a non-empty queue. -/
def RemoveMessage {T : Type} (view : T → Message) (queue : List T) (rl : MessageRateLimits) :
    List T × MessageRateLimits :=
  match queue with
  | [] => ([], rl)
  | front :: rest =>
    let message_type := (view front).GetMessageType
    let data_size := GetSize (view front).GetMessageData
    (rest,
      match message_type with
      | .ExtenderCommunication => rl.Subtract .ExtenderCommunication data_size
      | .Noise => rl.Subtract .Noise data_size
      | .RelayData => rl.Subtract .RelayData data_size
      | _ => rl)

/-- The variables a packing loop of `GetMessages` reads and writes. -/
structure LoopState (T : Type) where
  success : Bool
  stop : Bool
  num : Nat
  tempbuf : Buffer
  buffer : Buffer
  queue : List T
  limits : MessageRateLimits
deriving DecidableEq, Repr

/-- The loop over `m_NormalQueue` (lines 124-157), entered with `success = true`
and `stop = false`.  The recursive call continues on the queue `RemoveMessage`
leaves, which is `rest`. -/
def NormalLoop (env : Env) (symkey : SymmetricKeyData) (concatenate : Bool) :
    List Message → MessageRateLimits → Buffer → Buffer → Nat → LoopState Message
  | [], rl, tempbuf, buffer, num => ⟨true, false, num, tempbuf, buffer, [], rl⟩
  | msg :: rest, rl, tempbuf, buffer, num =>
    let w := env.Write msg tempbuf symkey
    if w.1 then
      if GetSize buffer + GetSize w.2 ≤ env.MaxMessageDataSize then
        let removed := RemoveMessage id (msg :: rest) rl
        if !concatenate then
          ⟨true, true, num + 1, w.2, buffer ++ w.2, removed.1, removed.2⟩
        else
          NormalLoop env symkey concatenate rest removed.2 w.2 (buffer ++ w.2) (num + 1)
      else
        ⟨true, true, num, w.2, buffer, msg :: rest, rl⟩
    else
      ⟨false, false, num, w.2, buffer, msg :: rest, rl⟩

/-- The loop over `m_DelayedQueue` (lines 161-201), entered with `success = true`.
`stop` is not written by this loop. -/
def DelayedLoop (env : Env) (symkey : SymmetricKeyData) (concatenate : Bool) (now : SteadyTime) :
    List DelayedMessage → MessageRateLimits → Buffer → Buffer → Nat → LoopState DelayedMessage
  | [], rl, tempbuf, buffer, num => ⟨true, false, num, tempbuf, buffer, [], rl⟩
  | dmsg :: rest, rl, tempbuf, buffer, num =>
    if dmsg.IsTime now then
      let w := env.Write dmsg.Message tempbuf symkey
      if w.1 then
        if GetSize buffer + GetSize w.2 ≤ env.MaxMessageDataSize then
          let removed := RemoveMessage DelayedMessage.Message (dmsg :: rest) rl
          if !concatenate then
            ⟨true, false, num + 1, w.2, buffer ++ w.2, removed.1, removed.2⟩
          else
            DelayedLoop env symkey concatenate now rest removed.2 w.2 (buffer ++ w.2) (num + 1)
        else
          ⟨true, false, num, w.2, buffer, dmsg :: rest, rl⟩
      else
        ⟨false, false, num, w.2, buffer, dmsg :: rest, rl⟩
    else
      ⟨true, false, num, tempbuf, buffer, dmsg :: rest, rl⟩

/-- What a call of `GetMessages` leaves: the returned pair, the caller's buffer
and the object. -/
structure GetResult where
  success : Bool
  num : Nat
  buffer : Buffer
  queues : PeerSendQueues
deriving DecidableEq, Repr

/-- `GetExpeditedMessages` (lines 215-242).  The assertion excludes the empty
queue, and `GetMessages` only calls it on a non-empty one. -/
def GetExpeditedMessages (env : Env) (self : PeerSendQueues) (buffer : Buffer)
    (symkey : SymmetricKeyData) : GetResult :=
  match self.m_ExpeditedQueue with
  | [] => ⟨true, 0, buffer, self⟩
  | msg :: rest =>
    let w := env.Write msg buffer symkey
    if w.1 then
      let removed := RemoveMessage id (msg :: rest) self.m_RateLimits
      ⟨true, 1, w.2, { self with m_ExpeditedQueue := removed.1, m_RateLimits := removed.2 }⟩
    else
      ⟨false, 0, w.2, self⟩

/-- `GetMessages` (lines 103-213). -/
def GetMessages (env : Env) (self : PeerSendQueues) (buffer : Buffer)
    (symkey : SymmetricKeyData) (concatenate : Bool) (now : SteadyTime) : GetResult :=
  if !self.m_ExpeditedQueue.isEmpty then
    GetExpeditedMessages env self buffer symkey
  else
    let n := NormalLoop env symkey concatenate self.m_NormalQueue self.m_RateLimits [] buffer 0
    if n.success && !n.stop then
      let d := DelayedLoop env symkey concatenate now self.m_DelayedQueue n.limits
        n.tempbuf n.buffer n.num
      ⟨d.success, d.num, d.buffer,
        { self with m_NormalQueue := n.queue, m_DelayedQueue := d.queue, m_RateLimits := d.limits }⟩
    else
      ⟨n.success, n.num, n.buffer,
        { self with m_NormalQueue := n.queue, m_RateLimits := n.limits }⟩

/-- Class of a message type: the mapping the switch of `AddMessage` (lines 12-22)
applies when it selects the instance of `AddMessageImpl`. -/
def RateLimitTypeOf : MessageType → RateLimitType
  | .ExtenderCommunication => .ExtenderCommunication
  | .Noise => .Noise
  | .RelayData => .RelayData
  | _ => .Default

/-- Total data size of the messages of `msgs` whose type maps to class `t`. -/
def BytesOfClass (t : RateLimitType) (msgs : List Message) : Nat :=
  ((msgs.filter (fun m => decide (RateLimitTypeOf m.GetMessageType = t))).map
    (fun m => GetSize m.GetMessageData)).sum

/-- Total data size of the messages of class `t` held in the three queues. -/
def QueuedBytes (t : RateLimitType) (self : PeerSendQueues) : Nat :=
  BytesOfClass t self.m_ExpeditedQueue + BytesOfClass t self.m_NormalQueue +
    BytesOfClass t (self.m_DelayedQueue.map DelayedMessage.Message)

/-- One call on the scheduler, with the inputs the call takes from outside. -/
inductive Call where
  | enqueue (msg : Message) (priority : PriorityOption) (delay : Milliseconds)
      (now : SteadyTime) (pushOk : Bool)
  | pack (buffer : Buffer) (symkey : SymmetricKeyData) (concatenate : Bool) (now : SteadyTime)

/-- The scheduler after one call. -/
def Step (env : Env) (self : PeerSendQueues) : Call → PeerSendQueues
  | .enqueue msg priority delay now pushOk => (AddMessage env self msg priority delay now pushOk).2
  | .pack buffer symkey concatenate now => (GetMessages env self buffer symkey concatenate now).queues

/-- The scheduler after a sequence of calls, started from the empty scheduler. -/
def Run (env : Env) (calls : List Call) : PeerSendQueues :=
  calls.foldl (Step env) PeerSendQueues.empty

/-- Rate limits after the switch of `RemoveMessage` has run for each message of
`msgs` in turn. -/
def ReleaseAll (rl : MessageRateLimits) : List Message → MessageRateLimits
  | [] => rl
  | m :: ms => ReleaseAll (RemoveMessage id [m] rl).2 ms

/-- Content of the scratch buffer `tempbuf` after `Write` has been called on it
for each message of `msgs` in turn, from content `t`. -/
def ScratchAfter (env : Env) (symkey : SymmetricKeyData) : Buffer → List Message → Buffer
  | t, [] => t
  | t, m :: ms => ScratchAfter env symkey (env.Write m t symkey).2 ms

/-- Bytes the statements `buffer += tempbuf` append when the messages of `msgs`
are written to the scratch buffer in turn, from scratch content `t`. -/
def Appended (env : Env) (symkey : SymmetricKeyData) : Buffer → List Message → Buffer
  | _, [] => []
  | t, m :: ms => (env.Write m t symkey).2 ++ Appended env symkey (env.Write m t symkey).2 ms

/-- Framed bytes of one message: what `Write` leaves in an empty buffer. -/
def Framed (env : Env) (symkey : SymmetricKeyData) (m : Message) : Buffer :=
  (env.Write m [] symkey).2

/-- Modelled from the spec: `Message::Write` (its body is not among the sources), in
the reading of the words of section 4.5, "appends to out_buffer only on success":
the framed bytes are appended to the buffer argument on success and the buffer is
left alone on failure.  `frame` gives the framed bytes of a message under a key,
or `none` when framing fails.  On an empty buffer argument this reading and
`WriteReplacing` agree. -/
def WriteAppending (frame : Message → SymmetricKeyData → Option Buffer) :
    Message → Buffer → SymmetricKeyData → Bool × Buffer :=
  fun msg out symkey =>
    match frame msg symkey with
    | some f => (true, out ++ f)
    | none => (false, out)

/-- Modelled from the spec: `Message::Write` (its body is not among the sources), in
the reading of sections 4.4, 5 and 8, in which the scratch buffer is reused from
one message to the next and its size is the framed size of the message just
written (scenario 2: three messages of 80 bytes and a limit of 200 give a buffer
of 160 bytes): on success the buffer argument holds the framed bytes of the
message, on failure it is left alone.  The loops of `GetMessages`, which declare
`tempbuf` once and append it whole after every `Write`, rely on this. -/
def WriteReplacing (frame : Message → SymmetricKeyData → Option Buffer) :
    Message → Buffer → SymmetricKeyData → Bool × Buffer :=
  fun msg out symkey =>
    match frame msg symkey with
    | some f => (true, f)
    | none => (false, out)

/-- The framer of the scenarios of section 8: the framed bytes are the raw data. -/
def RawFrame : Message → SymmetricKeyData → Option Buffer :=
  fun msg _ => some msg.GetMessageData

/-- A framer that fails on every message (scenario 6 of section 8). -/
def FailingFrame : Message → SymmetricKeyData → Option Buffer :=
  fun _ _ => none

/-- The class limits of the scenarios of section 8. -/
def ScenarioMaxBytes : RateLimitType → Nat
  | .Default => 1000
  | .ExtenderCommunication => 1000
  | .Noise => 500
  | .RelayData => 1000

/-- The environment of the scenarios of section 8: frame limit 200, raw framing,
a `Write` that leaves the framed bytes of its message in the buffer argument. -/
def ScenarioEnv : Env :=
  ⟨200, ScenarioMaxBytes, WriteReplacing RawFrame⟩

/-- A message of `n` zero bytes. -/
def ZeroMessage (t : MessageType) (n : Nat) : Message :=
  ⟨t, List.replicate n 0⟩

/-- Whether each `Write` succeeds when the messages of `msgs` are written to the
scratch buffer in turn, from scratch content `t`. -/
def WritesOk (env : Env) (symkey : SymmetricKeyData) : Buffer → List Message → Bool
  | _, [] => true
  | t, m :: ms => (env.Write m t symkey).1 && WritesOk env symkey (env.Write m t symkey).2 ms

/-- The framed bytes of the messages of `msgs`, one after the other. -/
def FramedBytes (env : Env) (symkey : SymmetricKeyData) : List Message → Buffer
  | [] => []
  | m :: ms => Framed env symkey m ++ FramedBytes env symkey ms

/-- Two normal messages, of 150 and of 100 bytes. -/
def TwoNormalQueues : PeerSendQueues :=
  Run ScenarioEnv [.enqueue (ZeroMessage (.Other 0) 150) .Normal 0 0 true,
    .enqueue (ZeroMessage .RelayData 100) .Normal 0 0 true]

/-- Two normal messages and one delayed entry, with bytes that tell them apart. -/
def FifoQueues : PeerSendQueues :=
  Run ScenarioEnv [.enqueue ⟨.Other 0, [1, 2]⟩ .Normal 0 0 true,
    .enqueue ⟨.Noise, [3, 4, 5]⟩ .Normal 0 0 true,
    .enqueue ⟨.RelayData, [6]⟩ .Delayed 5 0 true]

/-- Whether each message of `msgs`, written in turn to the scratch buffer (content
`t` at the start), is written successfully and passes the size test of lines 129
and 168 against the buffer `b` as grown so far. -/
def PacksAll (env : Env) (symkey : SymmetricKeyData) : Buffer → Buffer → List Message → Bool
  | _, _, [] => true
  | b, t, m :: ms =>
    (env.Write m t symkey).1 &&
      decide (GetSize b + GetSize (env.Write m t symkey).2 ≤ env.MaxMessageDataSize) &&
      PacksAll env symkey (b ++ (env.Write m t symkey).2) (env.Write m t symkey).2 ms

/-- The environment of scenario 6 of section 8: every `Write` fails. -/
def FailingEnv : Env :=
  ⟨200, ScenarioMaxBytes, WriteReplacing FailingFrame⟩

/-- Scenario 6 of section 8: one normal message of 80 bytes is queued. -/
def OneNormalQueues : PeerSendQueues :=
  Run FailingEnv [.enqueue (ZeroMessage .Noise 80) .Normal 0 0 true]

/-- Two normal messages of 80 bytes and a ready delayed entry of 10 bytes. -/
def NormalAndDelayedQueues : PeerSendQueues :=
  Run ScenarioEnv [.enqueue (ZeroMessage (.Other 0) 80) .Normal 0 0 true,
    .enqueue (ZeroMessage .RelayData 80) .Normal 0 0 true,
    .enqueue (ZeroMessage .Noise 10) .Delayed 0 0 true]

/-- The normal loop as `GetMessages` starts it: on `m_NormalQueue`, with an empty
`tempbuf`, the caller's buffer and `num = 0`. -/
def NormalPhase (env : Env) (self : PeerSendQueues) (buffer : Buffer)
    (symkey : SymmetricKeyData) (concatenate : Bool) : LoopState Message :=
  NormalLoop env symkey concatenate self.m_NormalQueue self.m_RateLimits [] buffer 0

/-- The delayed loop as `GetMessages` starts it after the normal loop: on
`m_DelayedQueue`, with the variables the normal loop left. -/
def DelayedPhase (env : Env) (self : PeerSendQueues) (buffer : Buffer)
    (symkey : SymmetricKeyData) (concatenate : Bool) (now : SteadyTime) :
    LoopState DelayedMessage :=
  DelayedLoop env symkey concatenate now self.m_DelayedQueue
    (NormalPhase env self buffer symkey concatenate).limits
    (NormalPhase env self buffer symkey concatenate).tempbuf
    (NormalPhase env self buffer symkey concatenate).buffer
    (NormalPhase env self buffer symkey concatenate).num

/-- Scenario 1 of section 8 for a message of type `t`: one normal message of 100
bytes is enqueued on the empty scheduler, then one frame is packed into an empty
buffer with concatenation allowed. -/
def RoundTripCalls (t : MessageType) : List Call :=
  [.enqueue (ZeroMessage t 100) .Normal 0 0 true, .pack [] 0 true 0]

/-- Scenario 5 of section 8: the scheduler after a noise message of 500 bytes,
the whole limit of the class, has been enqueued. -/
def NoiseFullQueues : PeerSendQueues :=
  Run ScenarioEnv [.enqueue (ZeroMessage .Noise 500) .Normal 0 0 true]

/-- Scenario 3 of section 8: a normal message of 80 bytes, then an expedited
message of 50 bytes. -/
def ExpeditedAndNormalQueues : PeerSendQueues :=
  Run ScenarioEnv [.enqueue (ZeroMessage (.Other 0) 80) .Normal 0 0 true,
    .enqueue (ZeroMessage (.Other 1) 50) .Expedited 0 0 true]

/-- The scheduler after one expedited message of 201 bytes, one byte more than
the frame limit of `ScenarioEnv`, has been enqueued. -/
def OversizedExpeditedQueues : PeerSendQueues :=
  Run ScenarioEnv [.enqueue (ZeroMessage (.Other 0) 201) .Expedited 0 0 true]


/-- One normal message of 150 bytes and one delayed noise entry of 10 bytes that
is ready from time 0 on. -/
def BlockedNormalQueues : PeerSendQueues :=
  Run ScenarioEnv [.enqueue (ZeroMessage (.Other 0) 150) .Normal 0 0 true,
    .enqueue (ZeroMessage .Noise 10) .Delayed 0 0 true]

/-- An entry buffer of 100 bytes. -/
def HalfFullBuffer : Buffer := List.replicate 100 7

/-- The scheduler with all queues empty after scenario 1 of section 8 has been
run with a message of class `Default`. -/
def DrainedQueues : PeerSendQueues :=
  Run ScenarioEnv (RoundTripCalls (.Other 0))

/-- Normal messages of 150 and 100 bytes and one delayed noise entry of 10 bytes
that is ready from time 0 on. -/
def BlockedSecondQueues : PeerSendQueues :=
  Run ScenarioEnv [.enqueue (ZeroMessage (.Other 0) 150) .Normal 0 0 true,
    .enqueue (ZeroMessage .RelayData 100) .Normal 0 0 true,
    .enqueue (ZeroMessage .Noise 10) .Delayed 0 0 true]

/-- A normal message of 201 bytes, one byte more than the frame limit of
`ScenarioEnv`, at the head of the normal queue, a normal message of 10 bytes
behind it and a delayed entry of 10 bytes that is ready from time 0 on. -/
def OversizedNormalQueues : PeerSendQueues :=
  Run ScenarioEnv [.enqueue (ZeroMessage (.Other 0) 201) .Normal 0 0 true,
    .enqueue (ZeroMessage .RelayData 10) .Normal 0 0 true,
    .enqueue (ZeroMessage .Noise 10) .Delayed 0 0 true]

/-- Total data size of the messages of `msgs` whose type is `ty`. -/
def BytesOfType (ty : MessageType) (msgs : List Message) : Nat :=
  ((msgs.filter (fun m => decide (m.GetMessageType = ty))).map
    (fun m => GetSize m.GetMessageData)).sum

/-- Whether every `Subtract` the switch of `RemoveMessage` issues, when it runs for
each message of `msgs` in turn from the counters `rl`, meets the precondition
`current_bytes[class] ≥ size` of section 4.1. -/
def SubtractsOk : MessageRateLimits → List Message → Bool
  | _, [] => true
  | rl, m :: ms =>
    (match m.GetMessageType with
      | .ExtenderCommunication =>
        decide (GetSize m.GetMessageData ≤ rl.current .ExtenderCommunication)
      | .Noise => decide (GetSize m.GetMessageData ≤ rl.current .Noise)
      | .RelayData => decide (GetSize m.GetMessageData ≤ rl.current .RelayData)
      | _ => true) &&
      SubtractsOk (RemoveMessage id [m] rl).2 ms

/-- The loop `NormalLoop` with a count of the calls of `Write` it makes: `writes`
is the count on entry, the second component of the result the count on exit. -/
def NormalLoopTraced (env : Env) (symkey : SymmetricKeyData) (concatenate : Bool) :
    List Message → MessageRateLimits → Buffer → Buffer → Nat → Nat → LoopState Message × Nat
  | [], rl, tempbuf, buffer, num, writes => (⟨true, false, num, tempbuf, buffer, [], rl⟩, writes)
  | msg :: rest, rl, tempbuf, buffer, num, writes =>
    let w := env.Write msg tempbuf symkey
    if w.1 then
      if GetSize buffer + GetSize w.2 ≤ env.MaxMessageDataSize then
        let removed := RemoveMessage id (msg :: rest) rl
        if !concatenate then
          (⟨true, true, num + 1, w.2, buffer ++ w.2, removed.1, removed.2⟩, writes + 1)
        else
          NormalLoopTraced env symkey concatenate rest removed.2 w.2 (buffer ++ w.2) (num + 1)
            (writes + 1)
      else
        (⟨true, true, num, w.2, buffer, msg :: rest, rl⟩, writes + 1)
    else
      (⟨false, false, num, w.2, buffer, msg :: rest, rl⟩, writes + 1)

/-- The loop `DelayedLoop` with a count of the calls of `Write` it makes. -/
def DelayedLoopTraced (env : Env) (symkey : SymmetricKeyData) (concatenate : Bool)
    (now : SteadyTime) :
    List DelayedMessage → MessageRateLimits → Buffer → Buffer → Nat → Nat →
      LoopState DelayedMessage × Nat
  | [], rl, tempbuf, buffer, num, writes => (⟨true, false, num, tempbuf, buffer, [], rl⟩, writes)
  | dmsg :: rest, rl, tempbuf, buffer, num, writes =>
    if dmsg.IsTime now then
      let w := env.Write dmsg.Message tempbuf symkey
      if w.1 then
        if GetSize buffer + GetSize w.2 ≤ env.MaxMessageDataSize then
          let removed := RemoveMessage DelayedMessage.Message (dmsg :: rest) rl
          if !concatenate then
            (⟨true, false, num + 1, w.2, buffer ++ w.2, removed.1, removed.2⟩, writes + 1)
          else
            DelayedLoopTraced env symkey concatenate now rest removed.2 w.2 (buffer ++ w.2)
              (num + 1) (writes + 1)
        else
          (⟨true, false, num, w.2, buffer, dmsg :: rest, rl⟩, writes + 1)
      else
        (⟨false, false, num, w.2, buffer, dmsg :: rest, rl⟩, writes + 1)
    else
      (⟨true, false, num, tempbuf, buffer, dmsg :: rest, rl⟩, writes)

/-- `GetExpeditedMessages` with the count of the calls of `Write` it makes. -/
def GetExpeditedMessagesTraced (env : Env) (self : PeerSendQueues) (buffer : Buffer)
    (symkey : SymmetricKeyData) : GetResult × Nat :=
  match self.m_ExpeditedQueue with
  | [] => (⟨true, 0, buffer, self⟩, 0)
  | msg :: rest =>
    let w := env.Write msg buffer symkey
    if w.1 then
      let removed := RemoveMessage id (msg :: rest) self.m_RateLimits
      (⟨true, 1, w.2, { self with m_ExpeditedQueue := removed.1, m_RateLimits := removed.2 }⟩, 1)
    else
      (⟨false, 0, w.2, self⟩, 1)

/-- `GetMessages` with the count of the calls of `Write` made during the call. -/
def GetMessagesTraced (env : Env) (self : PeerSendQueues) (buffer : Buffer)
    (symkey : SymmetricKeyData) (concatenate : Bool) (now : SteadyTime) : GetResult × Nat :=
  if !self.m_ExpeditedQueue.isEmpty then
    GetExpeditedMessagesTraced env self buffer symkey
  else
    let n := NormalLoopTraced env symkey concatenate self.m_NormalQueue self.m_RateLimits []
      buffer 0 0
    if n.1.success && !n.1.stop then
      let d := DelayedLoopTraced env symkey concatenate now self.m_DelayedQueue n.1.limits
        n.1.tempbuf n.1.buffer n.1.num n.2
      (⟨d.1.success, d.1.num, d.1.buffer,
        { self with
          m_NormalQueue := n.1.queue, m_DelayedQueue := d.1.queue, m_RateLimits := d.1.limits }⟩,
        d.2)
    else
      (⟨n.1.success, n.1.num, n.1.buffer,
        { self with m_NormalQueue := n.1.queue, m_RateLimits := n.1.limits }⟩, n.2)

/-- Scenario 2 of section 8 for messages of type `t`: three normal messages of 80
bytes are enqueued on the empty scheduler. -/
def ThreeNormalCalls (t : MessageType) : List Call :=
  [.enqueue (ZeroMessage t 80) .Normal 0 0 true, .enqueue (ZeroMessage t 80) .Normal 0 0 true,
    .enqueue (ZeroMessage t 80) .Normal 0 0 true]

theorem current_setCurrent (rl : MessageRateLimits) (t u : RateLimitType) (v : Nat) :
    (rl.setCurrent t v).current u = if u = t then v else rl.current u := by
  cases t <;> cases u <;> simp [MessageRateLimits.setCurrent, MessageRateLimits.current]

theorem current_Add (rl : MessageRateLimits) (t u : RateLimitType) (n : Nat) :
    (rl.Add t n).current u = if u = t then rl.current u + n else rl.current u := by
  unfold MessageRateLimits.Add
  rw [current_setCurrent]
  by_cases h : u = t
  · simp [h]
  · simp [h]

theorem current_Subtract (rl : MessageRateLimits) (t u : RateLimitType) (n : Nat) :
    (rl.Subtract t n).current u = if u = t then rl.current u - n else rl.current u := by
  unfold MessageRateLimits.Subtract
  rw [current_setCurrent]
  by_cases h : u = t
  · simp [h]
  · simp [h]

theorem MessageRateLimits.ext_current (a b : MessageRateLimits)
    (h : ∀ t, a.current t = b.current t) : a = b := by
  have h1 := h .ExtenderCommunication
  have h2 := h .Noise
  have h3 := h .RelayData
  have h4 := h .Default
  cases a
  cases b
  simp only [MessageRateLimits.current] at h1 h2 h3 h4
  simp [h1, h2, h3, h4]

/-! ## AddMessage -/

/-- The switch of `AddMessage` selects the instance of `AddMessageImpl` for the
class `RateLimitTypeOf` gives. -/
theorem AddMessage_eq_Impl (env : Env) (self : PeerSendQueues) (msg : Message)
    (priority : PriorityOption) (delay : Milliseconds) (now : SteadyTime) (pushOk : Bool) :
    AddMessage env self msg priority delay now pushOk =
      AddMessageImpl env (RateLimitTypeOf msg.GetMessageType) self msg priority delay now
        pushOk := by
  unfold AddMessage
  cases h : msg.GetMessageType <;> simp [RateLimitTypeOf]

theorem AddMessageImpl_full (env : Env) (t : RateLimitType) (self : PeerSendQueues)
    (msg : Message) (priority : PriorityOption) (delay : Milliseconds) (now : SteadyTime)
    (pushOk : Bool) (h : self.m_RateLimits.CanAdd env t (GetSize msg.GetMessageData) = false) :
    AddMessageImpl env t self msg priority delay now pushOk =
      (ResultCode.PeerSendBufferFull, self) := by
  simp [AddMessageImpl, h]

theorem AddMessageImpl_oom (env : Env) (t : RateLimitType) (self : PeerSendQueues)
    (msg : Message) (priority : PriorityOption) (delay : Milliseconds) (now : SteadyTime)
    (h : self.m_RateLimits.CanAdd env t (GetSize msg.GetMessageData) = true) :
    AddMessageImpl env t self msg priority delay now false = (ResultCode.OutOfMemory, self) := by
  simp [AddMessageImpl, h]

theorem AddMessageImpl_ok (env : Env) (t : RateLimitType) (self : PeerSendQueues)
    (msg : Message) (priority : PriorityOption) (delay : Milliseconds) (now : SteadyTime)
    (h : self.m_RateLimits.CanAdd env t (GetSize msg.GetMessageData) = true) :
    AddMessageImpl env t self msg priority delay now true =
      (ResultCode.Succeeded,
        match priority with
        | .Normal =>
          { self with
            m_NormalQueue := self.m_NormalQueue ++ [msg]
            m_RateLimits := self.m_RateLimits.Add t (GetSize msg.GetMessageData) }
        | .Expedited =>
          { self with
            m_ExpeditedQueue := self.m_ExpeditedQueue ++ [msg]
            m_RateLimits := self.m_RateLimits.Add t (GetSize msg.GetMessageData) }
        | .Delayed =>
          { self with
            m_DelayedQueue := self.m_DelayedQueue ++ [⟨msg, now, delay⟩]
            m_RateLimits := self.m_RateLimits.Add t (GetSize msg.GetMessageData) }) := by
  cases priority <;> simp [AddMessageImpl, h]

/-- If `AddMessageImpl` does not return `Succeeded`, the object is as before. -/
theorem AddMessageImpl_unchanged_of_ne (env : Env) (t : RateLimitType) (self : PeerSendQueues)
    (msg : Message) (priority : PriorityOption) (delay : Milliseconds) (now : SteadyTime)
    (pushOk : Bool)
    (h : (AddMessageImpl env t self msg priority delay now pushOk).1 ≠ ResultCode.Succeeded) :
    (AddMessageImpl env t self msg priority delay now pushOk).2 = self := by
  cases hc : self.m_RateLimits.CanAdd env t (GetSize msg.GetMessageData)
  · rw [AddMessageImpl_full env t self msg priority delay now pushOk hc]
  · cases pushOk
    · rw [AddMessageImpl_oom env t self msg priority delay now hc]
    · rw [AddMessageImpl_ok env t self msg priority delay now hc] at h
      exact absurd rfl h


/-! ## RemoveMessage -/

theorem RemoveMessage_fst {T : Type} (view : T → Message) (x : T) (rest : List T)
    (rl : MessageRateLimits) : (RemoveMessage view (x :: rest) rl).1 = rest := rfl

theorem RemoveMessage_snd {T : Type} (view : T → Message) (x : T) (rest : List T)
    (rl : MessageRateLimits) :
    (RemoveMessage view (x :: rest) rl).2 = (RemoveMessage id [view x] rl).2 := rfl

theorem ReleaseAll_append (rl : MessageRateLimits) (a b : List Message) :
    ReleaseAll rl (a ++ b) = ReleaseAll (ReleaseAll rl a) b := by
  induction a generalizing rl with
  | nil => rfl
  | cons x xs ih => simp [ReleaseAll, ih]

theorem Appended_append (env : Env) (symkey : SymmetricKeyData) (t : Buffer)
    (a b : List Message) :
    Appended env symkey t (a ++ b) =
      Appended env symkey t a ++ Appended env symkey (ScratchAfter env symkey t a) b := by
  induction a generalizing t with
  | nil => simp [Appended, ScratchAfter]
  | cons x xs ih => simp [Appended, ScratchAfter, ih]

theorem ScratchAfter_append (env : Env) (symkey : SymmetricKeyData) (t : Buffer)
    (a b : List Message) :
    ScratchAfter env symkey t (a ++ b) =
      ScratchAfter env symkey (ScratchAfter env symkey t a) b := by
  induction a generalizing t with
  | nil => rfl
  | cons x xs ih => simp [ScratchAfter, ih]

theorem WritesOk_append (env : Env) (symkey : SymmetricKeyData) (t : Buffer)
    (a b : List Message) :
    WritesOk env symkey t (a ++ b) =
      (WritesOk env symkey t a && WritesOk env symkey (ScratchAfter env symkey t a) b) := by
  induction a generalizing t with
  | nil => simp [WritesOk, ScratchAfter]
  | cons x xs ih => simp [WritesOk, ScratchAfter, ih, Bool.and_assoc]

/-- If a successful `Write` leaves the framed bytes of its message in the buffer
argument, whatever the buffer held before, the bytes appended for a list of
messages that are all written successfully are their framed bytes in order. -/
theorem Appended_eq_FramedBytes (env : Env) (symkey : SymmetricKeyData)
    (hrep : ∀ m t, (env.Write m t symkey).1 = true →
      (env.Write m t symkey).2 = Framed env symkey m)
    (msgs : List Message) : ∀ t : Buffer, WritesOk env symkey t msgs = true →
    Appended env symkey t msgs = FramedBytes env symkey msgs := by
  induction msgs with
  | nil => intro t _; rfl
  | cons m ms ih =>
    intro t h
    simp only [WritesOk, Bool.and_eq_true] at h
    simp only [Appended, FramedBytes]
    rw [ih _ h.2, hrep m t h.1]

theorem FramedBytes_append (env : Env) (symkey : SymmetricKeyData) (a b : List Message) :
    FramedBytes env symkey (a ++ b) = FramedBytes env symkey a ++ FramedBytes env symkey b := by
  induction a with
  | nil => rfl
  | cons x xs ih => simp [FramedBytes, ih]

/-! ## One iteration of the normal loop -/

theorem NormalLoop_nil (env : Env) (symkey : SymmetricKeyData) (concatenate : Bool)
    (rl : MessageRateLimits) (t b : Buffer) (n : Nat) :
    NormalLoop env symkey concatenate [] rl t b n = ⟨true, false, n, t, b, [], rl⟩ := rfl

theorem NormalLoop_writeError (env : Env) (symkey : SymmetricKeyData) (concatenate : Bool)
    (m : Message) (rest : List Message) (rl : MessageRateLimits) (t b : Buffer) (n : Nat)
    (hw : (env.Write m t symkey).1 = false) :
    NormalLoop env symkey concatenate (m :: rest) rl t b n =
      ⟨false, false, n, (env.Write m t symkey).2, b, m :: rest, rl⟩ := by
  simp [NormalLoop, hw]

theorem NormalLoop_full (env : Env) (symkey : SymmetricKeyData) (concatenate : Bool)
    (m : Message) (rest : List Message) (rl : MessageRateLimits) (t b : Buffer) (n : Nat)
    (hw : (env.Write m t symkey).1 = true)
    (hfit : ¬ GetSize b + GetSize (env.Write m t symkey).2 ≤ env.MaxMessageDataSize) :
    NormalLoop env symkey concatenate (m :: rest) rl t b n =
      ⟨true, true, n, (env.Write m t symkey).2, b, m :: rest, rl⟩ := by
  simp [NormalLoop, hw, hfit]

theorem NormalLoop_single (env : Env) (symkey : SymmetricKeyData)
    (m : Message) (rest : List Message) (rl : MessageRateLimits) (t b : Buffer) (n : Nat)
    (hw : (env.Write m t symkey).1 = true)
    (hfit : GetSize b + GetSize (env.Write m t symkey).2 ≤ env.MaxMessageDataSize) :
    NormalLoop env symkey false (m :: rest) rl t b n =
      ⟨true, true, n + 1, (env.Write m t symkey).2, b ++ (env.Write m t symkey).2, rest,
        (RemoveMessage id [m] rl).2⟩ := by
  simp [NormalLoop, hw, hfit, RemoveMessage]

theorem NormalLoop_next (env : Env) (symkey : SymmetricKeyData)
    (m : Message) (rest : List Message) (rl : MessageRateLimits) (t b : Buffer) (n : Nat)
    (hw : (env.Write m t symkey).1 = true)
    (hfit : GetSize b + GetSize (env.Write m t symkey).2 ≤ env.MaxMessageDataSize) :
    NormalLoop env symkey true (m :: rest) rl t b n =
      NormalLoop env symkey true rest (RemoveMessage id [m] rl).2 (env.Write m t symkey).2
        (b ++ (env.Write m t symkey).2) (n + 1) := by
  simp [NormalLoop, hw, hfit, RemoveMessage]

/-- What the normal loop does, in terms of the messages `pre` it removed. -/
theorem NormalLoop_spec (env : Env) (symkey : SymmetricKeyData) (concatenate : Bool)
    (q : List Message) : ∀ (rl : MessageRateLimits) (t b : Buffer) (n : Nat),
    ∃ pre : List Message,
      q = pre ++ (NormalLoop env symkey concatenate q rl t b n).queue ∧
      (NormalLoop env symkey concatenate q rl t b n).num = n + pre.length ∧
      (NormalLoop env symkey concatenate q rl t b n).limits = ReleaseAll rl pre ∧
      (NormalLoop env symkey concatenate q rl t b n).buffer = b ++ Appended env symkey t pre ∧
      ((NormalLoop env symkey concatenate q rl t b n).success = false →
        ∃ m rest, (NormalLoop env symkey concatenate q rl t b n).queue = m :: rest ∧
          (env.Write m (ScratchAfter env symkey t pre) symkey).1 = false) ∧
      ((NormalLoop env symkey concatenate q rl t b n).success = true →
        (NormalLoop env symkey concatenate q rl t b n).stop = false →
        (NormalLoop env symkey concatenate q rl t b n).queue = [] ∧
          (NormalLoop env symkey concatenate q rl t b n).tempbuf =
            ScratchAfter env symkey t pre) ∧
      (concatenate = false → pre.length ≤ 1) ∧
      WritesOk env symkey t pre = true := by
  induction q with
  | nil =>
    intro rl t b n
    refine ⟨[], ?_⟩
    simp [NormalLoop_nil, ReleaseAll, Appended, ScratchAfter, WritesOk]
  | cons m rest ih =>
    intro rl t b n
    cases hw : (env.Write m t symkey).1
    · refine ⟨[], ?_⟩
      rw [NormalLoop_writeError env symkey concatenate m rest rl t b n hw]
      simp [ReleaseAll, Appended, ScratchAfter, WritesOk, hw]
    · by_cases hfit : GetSize b + GetSize (env.Write m t symkey).2 ≤ env.MaxMessageDataSize
      · cases concatenate
        · refine ⟨[m], ?_⟩
          rw [NormalLoop_single env symkey m rest rl t b n hw hfit]
          simp [ReleaseAll, Appended, ScratchAfter, WritesOk, hw]
        · obtain ⟨pre, h1, h2, h3, h4, h5, h6, _, h8⟩ :=
            ih (RemoveMessage id [m] rl).2 (env.Write m t symkey).2
              (b ++ (env.Write m t symkey).2) (n + 1)
          refine ⟨m :: pre, ?_⟩
          rw [NormalLoop_next env symkey m rest rl t b n hw hfit]
          refine ⟨?_, ?_, ?_, ?_, ?_, ?_, ?_, ?_⟩
          · simpa using h1
          · rw [h2]; simp; omega
          · rw [h3]; rfl
          · rw [h4]; simp [Appended]
          · simpa [ScratchAfter] using h5
          · simpa [ScratchAfter] using h6
          · intro h; cases h
          · simp [WritesOk, hw, h8]
      · refine ⟨[], ?_⟩
        rw [NormalLoop_full env symkey concatenate m rest rl t b n hw hfit]
        simp [ReleaseAll, Appended, ScratchAfter, WritesOk]


/-! ## One iteration of the delayed loop -/

theorem DelayedLoop_nil (env : Env) (symkey : SymmetricKeyData) (concatenate : Bool)
    (now : SteadyTime) (rl : MessageRateLimits) (t b : Buffer) (n : Nat) :
    DelayedLoop env symkey concatenate now [] rl t b n = ⟨true, false, n, t, b, [], rl⟩ := rfl

theorem DelayedLoop_notTime (env : Env) (symkey : SymmetricKeyData) (concatenate : Bool)
    (now : SteadyTime) (d : DelayedMessage) (rest : List DelayedMessage)
    (rl : MessageRateLimits) (t b : Buffer) (n : Nat) (ht : d.IsTime now = false) :
    DelayedLoop env symkey concatenate now (d :: rest) rl t b n =
      ⟨true, false, n, t, b, d :: rest, rl⟩ := by
  simp [DelayedLoop, ht]

theorem DelayedLoop_writeError (env : Env) (symkey : SymmetricKeyData) (concatenate : Bool)
    (now : SteadyTime) (d : DelayedMessage) (rest : List DelayedMessage)
    (rl : MessageRateLimits) (t b : Buffer) (n : Nat) (ht : d.IsTime now = true)
    (hw : (env.Write d.Message t symkey).1 = false) :
    DelayedLoop env symkey concatenate now (d :: rest) rl t b n =
      ⟨false, false, n, (env.Write d.Message t symkey).2, b, d :: rest, rl⟩ := by
  simp [DelayedLoop, ht, hw]

theorem DelayedLoop_full (env : Env) (symkey : SymmetricKeyData) (concatenate : Bool)
    (now : SteadyTime) (d : DelayedMessage) (rest : List DelayedMessage)
    (rl : MessageRateLimits) (t b : Buffer) (n : Nat) (ht : d.IsTime now = true)
    (hw : (env.Write d.Message t symkey).1 = true)
    (hfit : ¬ GetSize b + GetSize (env.Write d.Message t symkey).2 ≤ env.MaxMessageDataSize) :
    DelayedLoop env symkey concatenate now (d :: rest) rl t b n =
      ⟨true, false, n, (env.Write d.Message t symkey).2, b, d :: rest, rl⟩ := by
  simp [DelayedLoop, ht, hw, hfit]

theorem DelayedLoop_single (env : Env) (symkey : SymmetricKeyData)
    (now : SteadyTime) (d : DelayedMessage) (rest : List DelayedMessage)
    (rl : MessageRateLimits) (t b : Buffer) (n : Nat) (ht : d.IsTime now = true)
    (hw : (env.Write d.Message t symkey).1 = true)
    (hfit : GetSize b + GetSize (env.Write d.Message t symkey).2 ≤ env.MaxMessageDataSize) :
    DelayedLoop env symkey false now (d :: rest) rl t b n =
      ⟨true, false, n + 1, (env.Write d.Message t symkey).2,
        b ++ (env.Write d.Message t symkey).2, rest, (RemoveMessage id [d.Message] rl).2⟩ := by
  simp [DelayedLoop, ht, hw, hfit, RemoveMessage]

theorem DelayedLoop_next (env : Env) (symkey : SymmetricKeyData)
    (now : SteadyTime) (d : DelayedMessage) (rest : List DelayedMessage)
    (rl : MessageRateLimits) (t b : Buffer) (n : Nat) (ht : d.IsTime now = true)
    (hw : (env.Write d.Message t symkey).1 = true)
    (hfit : GetSize b + GetSize (env.Write d.Message t symkey).2 ≤ env.MaxMessageDataSize) :
    DelayedLoop env symkey true now (d :: rest) rl t b n =
      DelayedLoop env symkey true now rest (RemoveMessage id [d.Message] rl).2
        (env.Write d.Message t symkey).2 (b ++ (env.Write d.Message t symkey).2) (n + 1) := by
  simp [DelayedLoop, ht, hw, hfit, RemoveMessage]

/-- What the delayed loop does, in terms of the entries `pre` it removed. -/
theorem DelayedLoop_spec (env : Env) (symkey : SymmetricKeyData) (concatenate : Bool)
    (now : SteadyTime) (q : List DelayedMessage) :
    ∀ (rl : MessageRateLimits) (t b : Buffer) (n : Nat),
    ∃ pre : List DelayedMessage,
      q = pre ++ (DelayedLoop env symkey concatenate now q rl t b n).queue ∧
      (DelayedLoop env symkey concatenate now q rl t b n).num = n + pre.length ∧
      (DelayedLoop env symkey concatenate now q rl t b n).limits =
        ReleaseAll rl (pre.map DelayedMessage.Message) ∧
      (DelayedLoop env symkey concatenate now q rl t b n).buffer =
        b ++ Appended env symkey t (pre.map DelayedMessage.Message) ∧
      ((DelayedLoop env symkey concatenate now q rl t b n).success = false →
        ∃ d rest, (DelayedLoop env symkey concatenate now q rl t b n).queue = d :: rest ∧
          d.IsTime now = true ∧
          (env.Write d.Message
            (ScratchAfter env symkey t (pre.map DelayedMessage.Message)) symkey).1 = false) ∧
      (∀ d ∈ pre, d.IsTime now = true) ∧
      (concatenate = false → pre.length ≤ 1) ∧
      WritesOk env symkey t (pre.map DelayedMessage.Message) = true := by
  induction q with
  | nil =>
    intro rl t b n
    refine ⟨[], ?_⟩
    simp [DelayedLoop_nil, ReleaseAll, Appended, WritesOk]
  | cons d rest ih =>
    intro rl t b n
    cases ht : d.IsTime now
    · refine ⟨[], ?_⟩
      rw [DelayedLoop_notTime env symkey concatenate now d rest rl t b n ht]
      simp [ReleaseAll, Appended, WritesOk]
    · cases hw : (env.Write d.Message t symkey).1
      · refine ⟨[], ?_⟩
        rw [DelayedLoop_writeError env symkey concatenate now d rest rl t b n ht hw]
        simp [ReleaseAll, Appended, ScratchAfter, WritesOk, hw, ht]
      · by_cases hfit :
          GetSize b + GetSize (env.Write d.Message t symkey).2 ≤ env.MaxMessageDataSize
        · cases concatenate
          · refine ⟨[d], ?_⟩
            rw [DelayedLoop_single env symkey now d rest rl t b n ht hw hfit]
            simp [ReleaseAll, Appended, WritesOk, ht, hw]
          · obtain ⟨pre, h1, h2, h3, h4, h5, h6, _, h8⟩ :=
              ih (RemoveMessage id [d.Message] rl).2 (env.Write d.Message t symkey).2
                (b ++ (env.Write d.Message t symkey).2) (n + 1)
            refine ⟨d :: pre, ?_⟩
            rw [DelayedLoop_next env symkey now d rest rl t b n ht hw hfit]
            refine ⟨?_, ?_, ?_, ?_, ?_, ?_, ?_, ?_⟩
            · simpa using h1
            · rw [h2]; simp; omega
            · rw [h3]; rfl
            · rw [h4]; simp [Appended]
            · simpa [ScratchAfter] using h5
            · intro x hx
              rcases List.mem_cons.mp hx with hx | hx
              · rw [hx]; exact ht
              · exact h6 x hx
            · intro h; cases h
            · simp [WritesOk, hw, h8]
        · refine ⟨[], ?_⟩
          rw [DelayedLoop_full env symkey concatenate now d rest rl t b n ht hw hfit]
          simp [ReleaseAll, Appended, WritesOk]

/-! ## Buffer size in the loops -/

theorem NormalLoop_buffer_le (env : Env) (symkey : SymmetricKeyData) (concatenate : Bool)
    (q : List Message) : ∀ (rl : MessageRateLimits) (t b : Buffer) (n : Nat),
    GetSize b ≤ env.MaxMessageDataSize →
    GetSize (NormalLoop env symkey concatenate q rl t b n).buffer ≤ env.MaxMessageDataSize := by
  induction q with
  | nil => intro rl t b n hb; simpa [NormalLoop_nil] using hb
  | cons m rest ih =>
    intro rl t b n hb
    cases hw : (env.Write m t symkey).1
    · rw [NormalLoop_writeError env symkey concatenate m rest rl t b n hw]; exact hb
    · by_cases hfit : GetSize b + GetSize (env.Write m t symkey).2 ≤ env.MaxMessageDataSize
      · have hsz : GetSize (b ++ (env.Write m t symkey).2) ≤ env.MaxMessageDataSize := by
          simpa [GetSize] using hfit
        cases concatenate
        · rw [NormalLoop_single env symkey m rest rl t b n hw hfit]; exact hsz
        · rw [NormalLoop_next env symkey m rest rl t b n hw hfit]
          exact ih _ _ _ _ hsz
      · rw [NormalLoop_full env symkey concatenate m rest rl t b n hw hfit]; exact hb

theorem DelayedLoop_buffer_le (env : Env) (symkey : SymmetricKeyData) (concatenate : Bool)
    (now : SteadyTime) (q : List DelayedMessage) :
    ∀ (rl : MessageRateLimits) (t b : Buffer) (n : Nat),
    GetSize b ≤ env.MaxMessageDataSize →
    GetSize (DelayedLoop env symkey concatenate now q rl t b n).buffer ≤
      env.MaxMessageDataSize := by
  induction q with
  | nil => intro rl t b n hb; simpa [DelayedLoop_nil] using hb
  | cons d rest ih =>
    intro rl t b n hb
    cases ht : d.IsTime now
    · rw [DelayedLoop_notTime env symkey concatenate now d rest rl t b n ht]; exact hb
    · cases hw : (env.Write d.Message t symkey).1
      · rw [DelayedLoop_writeError env symkey concatenate now d rest rl t b n ht hw]; exact hb
      · by_cases hfit :
          GetSize b + GetSize (env.Write d.Message t symkey).2 ≤ env.MaxMessageDataSize
        · have hsz : GetSize (b ++ (env.Write d.Message t symkey).2) ≤
              env.MaxMessageDataSize := by
            simpa [GetSize] using hfit
          cases concatenate
          · rw [DelayedLoop_single env symkey now d rest rl t b n ht hw hfit]; exact hsz
          · rw [DelayedLoop_next env symkey now d rest rl t b n ht hw hfit]
            exact ih _ _ _ _ hsz
        · rw [DelayedLoop_full env symkey concatenate now d rest rl t b n ht hw hfit]; exact hb


/-! ## GetExpeditedMessages and the branches of GetMessages -/

theorem GetMessages_of_expedited (env : Env) (self : PeerSendQueues) (buffer : Buffer)
    (symkey : SymmetricKeyData) (concatenate : Bool) (now : SteadyTime)
    (m : Message) (rest : List Message) (hq : self.m_ExpeditedQueue = m :: rest) :
    GetMessages env self buffer symkey concatenate now =
      GetExpeditedMessages env self buffer symkey := by
  simp [GetMessages, hq]

theorem GetExpeditedMessages_written (env : Env) (self : PeerSendQueues) (buffer : Buffer)
    (symkey : SymmetricKeyData) (m : Message) (rest : List Message)
    (hq : self.m_ExpeditedQueue = m :: rest) (hw : (env.Write m buffer symkey).1 = true) :
    GetExpeditedMessages env self buffer symkey =
      ⟨true, 1, (env.Write m buffer symkey).2,
        { self with
          m_ExpeditedQueue := rest
          m_RateLimits := (RemoveMessage id [m] self.m_RateLimits).2 }⟩ := by
  simp [GetExpeditedMessages, hq, hw, RemoveMessage]

theorem GetExpeditedMessages_writeError (env : Env) (self : PeerSendQueues) (buffer : Buffer)
    (symkey : SymmetricKeyData) (m : Message) (rest : List Message)
    (hq : self.m_ExpeditedQueue = m :: rest) (hw : (env.Write m buffer symkey).1 = false) :
    GetExpeditedMessages env self buffer symkey =
      ⟨false, 0, (env.Write m buffer symkey).2, self⟩ := by
  simp [GetExpeditedMessages, hq, hw]

/-- With an empty expedited queue and a normal loop that ends with `success` set
and `stop` clear, `GetMessages` runs the delayed loop. -/
theorem GetMessages_delayedPhase (env : Env) (self : PeerSendQueues) (buffer : Buffer)
    (symkey : SymmetricKeyData) (concatenate : Bool) (now : SteadyTime)
    (hq : self.m_ExpeditedQueue = [])
    (hs : (NormalPhase env self buffer symkey concatenate).success = true)
    (hp : (NormalPhase env self buffer symkey concatenate).stop = false) :
    GetMessages env self buffer symkey concatenate now =
      ⟨(DelayedPhase env self buffer symkey concatenate now).success,
        (DelayedPhase env self buffer symkey concatenate now).num,
        (DelayedPhase env self buffer symkey concatenate now).buffer,
        { self with
          m_NormalQueue := (NormalPhase env self buffer symkey concatenate).queue
          m_DelayedQueue := (DelayedPhase env self buffer symkey concatenate now).queue
          m_RateLimits := (DelayedPhase env self buffer symkey concatenate now).limits }⟩ := by
  unfold NormalPhase at hs hp
  simp [GetMessages, hq, hs, hp, DelayedPhase, NormalPhase]

/-- With an empty expedited queue and a normal loop that ends with `success` clear
or `stop` set, `GetMessages` returns what the normal loop left. -/
theorem GetMessages_normalOnly (env : Env) (self : PeerSendQueues) (buffer : Buffer)
    (symkey : SymmetricKeyData) (concatenate : Bool) (now : SteadyTime)
    (hq : self.m_ExpeditedQueue = [])
    (hs : (NormalPhase env self buffer symkey concatenate).success = false ∨
      (NormalPhase env self buffer symkey concatenate).stop = true) :
    GetMessages env self buffer symkey concatenate now =
      ⟨(NormalPhase env self buffer symkey concatenate).success,
        (NormalPhase env self buffer symkey concatenate).num,
        (NormalPhase env self buffer symkey concatenate).buffer,
        { self with
          m_NormalQueue := (NormalPhase env self buffer symkey concatenate).queue
          m_RateLimits := (NormalPhase env self buffer symkey concatenate).limits }⟩ := by
  unfold NormalPhase at hs
  rcases hs with hs | hs <;> simp [GetMessages, hq, hs, NormalPhase]

/-- Without concatenation the normal loop on a non-empty queue never ends with
`success` set and `stop` clear. -/
theorem NormalLoop_stops (env : Env) (symkey : SymmetricKeyData)
    (q : List Message) (rl : MessageRateLimits) (t b : Buffer) (n : Nat) (hq : q ≠ []) :
    (NormalLoop env symkey false q rl t b n).success = false ∨
      (NormalLoop env symkey false q rl t b n).stop = true := by
  cases q with
  | nil => exact absurd rfl hq
  | cons m rest =>
    cases hw : (env.Write m t symkey).1
    · left; rw [NormalLoop_writeError env symkey false m rest rl t b n hw]
    · right
      by_cases hfit : GetSize b + GetSize (env.Write m t symkey).2 ≤ env.MaxMessageDataSize
      · rw [NormalLoop_single env symkey m rest rl t b n hw hfit]
      · rw [NormalLoop_full env symkey false m rest rl t b n hw hfit]

/-- A failed normal loop leaves `stop` clear. -/
theorem NormalLoop_stop_of_failure (env : Env) (symkey : SymmetricKeyData) (concatenate : Bool)
    (q : List Message) : ∀ (rl : MessageRateLimits) (t b : Buffer) (n : Nat),
    (NormalLoop env symkey concatenate q rl t b n).success = false →
    (NormalLoop env symkey concatenate q rl t b n).stop = false := by
  induction q with
  | nil => intro rl t b n h; simp [NormalLoop_nil] at h
  | cons m rest ih =>
    intro rl t b n
    cases hw : (env.Write m t symkey).1
    · rw [NormalLoop_writeError env symkey concatenate m rest rl t b n hw]; simp
    · by_cases hfit : GetSize b + GetSize (env.Write m t symkey).2 ≤ env.MaxMessageDataSize
      · cases concatenate
        · rw [NormalLoop_single env symkey m rest rl t b n hw hfit]; simp
        · rw [NormalLoop_next env symkey m rest rl t b n hw hfit]; exact ih _ _ _ _
      · rw [NormalLoop_full env symkey concatenate m rest rl t b n hw hfit]; simp


/-! ## GetMessages with an empty expedited queue -/

/-- What `GetMessages` does when the expedited queue is empty, in terms of the
messages `pn` removed from the normal queue and `pd` removed from the delayed
queue. -/
theorem GetMessages_noExpedited_spec (env : Env) (self : PeerSendQueues) (buffer : Buffer)
    (symkey : SymmetricKeyData) (concatenate : Bool) (now : SteadyTime)
    (hq : self.m_ExpeditedQueue = []) :
    ∃ (pn : List Message) (pd : List DelayedMessage),
      self.m_NormalQueue =
        pn ++ (GetMessages env self buffer symkey concatenate now).queues.m_NormalQueue ∧
      self.m_DelayedQueue =
        pd ++ (GetMessages env self buffer symkey concatenate now).queues.m_DelayedQueue ∧
      (GetMessages env self buffer symkey concatenate now).queues.m_ExpeditedQueue = [] ∧
      (GetMessages env self buffer symkey concatenate now).num = pn.length + pd.length ∧
      (GetMessages env self buffer symkey concatenate now).queues.m_RateLimits =
        ReleaseAll self.m_RateLimits (pn ++ pd.map DelayedMessage.Message) ∧
      (GetMessages env self buffer symkey concatenate now).buffer =
        buffer ++ Appended env symkey [] (pn ++ pd.map DelayedMessage.Message) ∧
      (∀ d ∈ pd, d.IsTime now = true) ∧
      (pd ≠ [] →
        (GetMessages env self buffer symkey concatenate now).queues.m_NormalQueue = []) ∧
      (concatenate = false → pn.length + pd.length ≤ 1) ∧
      (concatenate = false → self.m_NormalQueue ≠ [] → pd = []) ∧
      ((GetMessages env self buffer symkey concatenate now).success = false →
        (pd = [] ∧ ∃ m rest,
          (GetMessages env self buffer symkey concatenate now).queues.m_NormalQueue =
            m :: rest ∧
          (env.Write m (ScratchAfter env symkey [] pn) symkey).1 = false) ∨
        ((GetMessages env self buffer symkey concatenate now).queues.m_NormalQueue = [] ∧
          ∃ d rest,
            (GetMessages env self buffer symkey concatenate now).queues.m_DelayedQueue =
              d :: rest ∧
            d.IsTime now = true ∧
            (env.Write d.Message
              (ScratchAfter env symkey [] (pn ++ pd.map DelayedMessage.Message))
              symkey).1 = false)) ∧
      WritesOk env symkey [] (pn ++ pd.map DelayedMessage.Message) = true := by
  obtain ⟨pn, n1, n2, n3, n4, n5, n6, n7, n8⟩ :=
    NormalLoop_spec env symkey concatenate self.m_NormalQueue self.m_RateLimits [] buffer 0
  have hn : NormalLoop env symkey concatenate self.m_NormalQueue self.m_RateLimits [] buffer 0 =
      NormalPhase env self buffer symkey concatenate := rfl
  rw [hn] at n1 n2 n3 n4 n5 n6
  by_cases hgo : (NormalPhase env self buffer symkey concatenate).success = true ∧
      (NormalPhase env self buffer symkey concatenate).stop = false
  · obtain ⟨hs, hp⟩ := hgo
    obtain ⟨hnq, hnt⟩ := n6 hs hp
    obtain ⟨pd, d1, d2, d3, d4, d5, d6, d7, d8⟩ :=
      DelayedLoop_spec env symkey concatenate now self.m_DelayedQueue
        (NormalPhase env self buffer symkey concatenate).limits
        (NormalPhase env self buffer symkey concatenate).tempbuf
        (NormalPhase env self buffer symkey concatenate).buffer
        (NormalPhase env self buffer symkey concatenate).num
    have hd : DelayedLoop env symkey concatenate now self.m_DelayedQueue
        (NormalPhase env self buffer symkey concatenate).limits
        (NormalPhase env self buffer symkey concatenate).tempbuf
        (NormalPhase env self buffer symkey concatenate).buffer
        (NormalPhase env self buffer symkey concatenate).num =
        DelayedPhase env self buffer symkey concatenate now := rfl
    rw [hd] at d1 d2 d3 d4 d5
    refine ⟨pn, pd, ?_⟩
    rw [GetMessages_delayedPhase env self buffer symkey concatenate now hq hs hp]
    refine ⟨n1, d1, hq, ?_, ?_, ?_, d6, ?_, ?_, ?_, ?_, ?_⟩
    · show (DelayedPhase env self buffer symkey concatenate now).num = _
      rw [d2, n2]; omega
    · show (DelayedPhase env self buffer symkey concatenate now).limits = _
      rw [d3, n3, ReleaseAll_append]
    · show (DelayedPhase env self buffer symkey concatenate now).buffer = _
      rw [d4, n4, hnt, Appended_append, List.append_assoc]
    · intro _; exact hnq
    · intro hc
      have hpn : pn = [] := by
        by_contra hne
        have hq2 : self.m_NormalQueue ≠ [] := by
          rw [n1]; simp [hne]
        have := NormalLoop_stops env symkey self.m_NormalQueue self.m_RateLimits [] buffer 0 hq2
        rw [hc] at hs hp
        unfold NormalPhase at hs hp
        rcases this with h | h
        · rw [h] at hs; cases hs
        · rw [h] at hp; cases hp
      have := d7 hc
      rw [hpn]; simpa using this
    · intro hc hq2
      have := NormalLoop_stops env symkey self.m_NormalQueue self.m_RateLimits [] buffer 0 hq2
      rw [hc] at hs hp
      unfold NormalPhase at hs hp
      rcases this with h | h
      · rw [h] at hs; cases hs
      · rw [h] at hp; cases hp
    · intro hf
      right
      refine ⟨hnq, ?_⟩
      obtain ⟨d, rest, e1, e2, e3⟩ := d5 hf
      refine ⟨d, rest, e1, e2, ?_⟩
      rw [ScratchAfter_append, ← hnt]
      exact e3
    · rw [WritesOk_append, n8, ← hnt, d8]; rfl
  · have hs : (NormalPhase env self buffer symkey concatenate).success = false ∨
        (NormalPhase env self buffer symkey concatenate).stop = true := by
      cases h1 : (NormalPhase env self buffer symkey concatenate).success
      · exact Or.inl rfl
      · cases h2 : (NormalPhase env self buffer symkey concatenate).stop
        · exact absurd ⟨h1, h2⟩ hgo
        · exact Or.inr rfl
    refine ⟨pn, [], ?_⟩
    rw [GetMessages_normalOnly env self buffer symkey concatenate now hq hs]
    refine ⟨n1, by simp, hq, ?_, ?_, ?_, ?_, ?_, ?_, ?_, ?_, ?_⟩
    · simpa using n2
    · simpa using n3
    · simpa using n4
    · intro d hd; cases hd
    · intro h; exact absurd rfl h
    · intro hc; simpa using n7 hc
    · intro _ _; rfl
    · intro hf
      left
      exact ⟨rfl, n5 hf⟩
    · simpa using n8


/-! ## Bytes of a class in the queues and in the counters -/

theorem WriteAppending_nil (frame : Message → SymmetricKeyData → Option Buffer)
    (m : Message) (symkey : SymmetricKeyData) :
    WriteAppending frame m [] symkey = WriteReplacing frame m [] symkey := by
  unfold WriteAppending WriteReplacing
  cases frame m symkey <;> simp

theorem BytesOfClass_cons (t : RateLimitType) (m : Message) (ms : List Message) :
    BytesOfClass t (m :: ms) =
      (if RateLimitTypeOf m.GetMessageType = t then GetSize m.GetMessageData else 0) +
        BytesOfClass t ms := by
  unfold BytesOfClass
  by_cases h : RateLimitTypeOf m.GetMessageType = t
  · simp [List.filter_cons, h]
  · simp [List.filter_cons, h]

theorem BytesOfClass_append (t : RateLimitType) (a b : List Message) :
    BytesOfClass t (a ++ b) = BytesOfClass t a + BytesOfClass t b := by
  induction a with
  | nil => simp [BytesOfClass]
  | cons x xs ih => rw [List.cons_append, BytesOfClass_cons, BytesOfClass_cons, ih]; omega

/-- The switch of `RemoveMessage` on the counters, class by class: the class of the
removed message loses its size, except that class `Default` is never touched. -/
theorem RemoveMessage_current (m : Message) (rl : MessageRateLimits) (t : RateLimitType) :
    (RemoveMessage id [m] rl).2.current t =
      if t = .Default then rl.current t
      else rl.current t -
        (if RateLimitTypeOf m.GetMessageType = t then GetSize m.GetMessageData else 0) := by
  unfold RemoveMessage
  simp only [id]
  cases hm : m.GetMessageType <;> cases t <;>
    simp [RateLimitTypeOf, current_Subtract]

theorem ReleaseAll_current (msgs : List Message) : ∀ (rl : MessageRateLimits)
    (t : RateLimitType),
    (ReleaseAll rl msgs).current t =
      if t = .Default then rl.current t else rl.current t - BytesOfClass t msgs := by
  induction msgs with
  | nil => intro rl t; simp [ReleaseAll, BytesOfClass]
  | cons m ms ih =>
    intro rl t
    rw [ReleaseAll, ih, RemoveMessage_current, BytesOfClass_cons]
    by_cases h : t = .Default
    · simp [h]
    · simp only [h, if_false]
      omega

/-- The messages a call of `GetMessages` removes: the queued bytes of every class
before the call are those of the removed messages plus those still queued, and
the counters are released for the removed messages. -/
theorem GetMessages_removed (env : Env) (self : PeerSendQueues) (buffer : Buffer)
    (symkey : SymmetricKeyData) (concatenate : Bool) (now : SteadyTime) :
    ∃ removed : List Message,
      (∀ t, QueuedBytes t self =
        BytesOfClass t removed +
          QueuedBytes t (GetMessages env self buffer symkey concatenate now).queues) ∧
      (GetMessages env self buffer symkey concatenate now).queues.m_RateLimits =
        ReleaseAll self.m_RateLimits removed ∧
      (GetMessages env self buffer symkey concatenate now).num = removed.length := by
  cases hq : self.m_ExpeditedQueue with
  | cons m rest =>
    rw [GetMessages_of_expedited env self buffer symkey concatenate now m rest hq]
    cases hw : (env.Write m buffer symkey).1
    · refine ⟨[], ?_⟩
      rw [GetExpeditedMessages_writeError env self buffer symkey m rest hq hw]
      simp [BytesOfClass, ReleaseAll]
    · refine ⟨[m], ?_⟩
      rw [GetExpeditedMessages_written env self buffer symkey m rest hq hw]
      refine ⟨?_, rfl, rfl⟩
      intro t
      simp only [QueuedBytes, hq]
      rw [BytesOfClass_cons, BytesOfClass_cons]
      simp only [BytesOfClass, List.filter_nil, List.map_nil, List.sum_nil]
      omega
  | nil =>
    obtain ⟨pn, pd, h1, h2, h3, h4, h5, _⟩ :=
      GetMessages_noExpedited_spec env self buffer symkey concatenate now hq
    refine ⟨pn ++ pd.map DelayedMessage.Message, ?_, h5, ?_⟩
    · intro t
      have e1 : BytesOfClass t self.m_NormalQueue =
          BytesOfClass t pn +
            BytesOfClass t
              (GetMessages env self buffer symkey concatenate now).queues.m_NormalQueue := by
        rw [← BytesOfClass_append, ← h1]
      have e2 : BytesOfClass t (self.m_DelayedQueue.map DelayedMessage.Message) =
          BytesOfClass t (pd.map DelayedMessage.Message) +
            BytesOfClass t
              ((GetMessages env self buffer symkey concatenate now).queues.m_DelayedQueue.map
                DelayedMessage.Message) := by
        rw [← BytesOfClass_append, ← List.map_append, ← h2]
      simp only [QueuedBytes]
      rw [h3, hq, e1, e2, BytesOfClass_append]
      omega
    · rw [h4]; simp

/-- `AddMessage` and the queued bytes: a successful call adds the size of the message
to the queued bytes of its class and to the counter of its class. -/
theorem AddMessage_queued (env : Env) (self : PeerSendQueues) (msg : Message)
    (priority : PriorityOption) (delay : Milliseconds) (now : SteadyTime) (pushOk : Bool) :
    (AddMessage env self msg priority delay now pushOk).2 = self ∨
    (self.m_RateLimits.CanAdd env (RateLimitTypeOf msg.GetMessageType)
        (GetSize msg.GetMessageData) = true ∧
      ∀ t,
        QueuedBytes t (AddMessage env self msg priority delay now pushOk).2 =
          QueuedBytes t self +
            (if RateLimitTypeOf msg.GetMessageType = t then GetSize msg.GetMessageData
              else 0) ∧
        (AddMessage env self msg priority delay now pushOk).2.m_RateLimits.current t =
          self.m_RateLimits.current t +
            (if RateLimitTypeOf msg.GetMessageType = t then GetSize msg.GetMessageData
              else 0)) := by
  rw [AddMessage_eq_Impl]
  cases hc : self.m_RateLimits.CanAdd env (RateLimitTypeOf msg.GetMessageType)
    (GetSize msg.GetMessageData)
  · left; rw [AddMessageImpl_full env _ self msg priority delay now pushOk hc]
  · cases pushOk
    · left; rw [AddMessageImpl_oom env _ self msg priority delay now hc]
    · right
      refine ⟨rfl, ?_⟩
      intro t
      rw [AddMessageImpl_ok env _ self msg priority delay now hc]
      have hb : BytesOfClass t [msg] =
          (if RateLimitTypeOf msg.GetMessageType = t then GetSize msg.GetMessageData
            else 0) := by
        rw [BytesOfClass_cons]; simp [BytesOfClass]
      constructor
      · cases priority <;>
          simp only [QueuedBytes, List.map_append, List.map_cons, List.map_nil,
            BytesOfClass_append, hb] <;> omega
      · cases priority <;> simp only [current_Add] <;>
          by_cases h : t = RateLimitTypeOf msg.GetMessageType <;>
          simp [h, eq_comm]

/-- The accounting that does hold in every state reached from the empty scheduler:
the counter of every class other than `Default` equals the queued bytes of the
class, the `Default` counter is at least the queued bytes of class `Default`, and
no counter exceeds its limit. -/
theorem Run_accounting (env : Env) (calls : List Call) :
    (∀ t, t ≠ RateLimitType.Default →
      (Run env calls).m_RateLimits.current t = QueuedBytes t (Run env calls)) ∧
    QueuedBytes .Default (Run env calls) ≤ (Run env calls).m_RateLimits.current .Default ∧
    (∀ t, (Run env calls).m_RateLimits.current t ≤ env.MaxBytes t) := by
  have key : ∀ (cs : List Call) (s : PeerSendQueues),
      ((∀ t, t ≠ RateLimitType.Default → s.m_RateLimits.current t = QueuedBytes t s) ∧
        QueuedBytes .Default s ≤ s.m_RateLimits.current .Default ∧
        (∀ t, s.m_RateLimits.current t ≤ env.MaxBytes t)) →
      ((∀ t, t ≠ RateLimitType.Default →
          (cs.foldl (Step env) s).m_RateLimits.current t =
            QueuedBytes t (cs.foldl (Step env) s)) ∧
        QueuedBytes .Default (cs.foldl (Step env) s) ≤
          (cs.foldl (Step env) s).m_RateLimits.current .Default ∧
        (∀ t, (cs.foldl (Step env) s).m_RateLimits.current t ≤ env.MaxBytes t)) := by
    intro cs
    induction cs with
    | nil => intro s h; exact h
    | cons c cs ih =>
      intro s h
      rw [List.foldl_cons]
      apply ih
      obtain ⟨h1, h2, h3⟩ := h
      cases c with
      | enqueue msg priority delay now pushOk =>
        simp only [Step]
        rcases AddMessage_queued env s msg priority delay now pushOk with he | ⟨hc, he⟩
        · rw [he]; exact ⟨h1, h2, h3⟩
        · have hcan : s.m_RateLimits.current (RateLimitTypeOf msg.GetMessageType) +
              GetSize msg.GetMessageData ≤ env.MaxBytes (RateLimitTypeOf msg.GetMessageType) := by
            simpa [MessageRateLimits.CanAdd] using hc
          refine ⟨?_, ?_, ?_⟩
          · intro t ht
            rw [(he t).1, (he t).2, h1 t ht]
          · rw [(he .Default).1, (he .Default).2]; omega
          · intro t
            rw [(he t).2]
            by_cases hcl : RateLimitTypeOf msg.GetMessageType = t
            · rw [if_pos hcl]; rw [hcl] at hcan; exact hcan
            · rw [if_neg hcl]; exact h3 t
      | pack buffer symkey concatenate now =>
        simp only [Step]
        obtain ⟨removed, r1, r2, _⟩ :=
          GetMessages_removed env s buffer symkey concatenate now
        refine ⟨?_, ?_, ?_⟩
        · intro t ht
          rw [r2, ReleaseAll_current, if_neg ht, h1 t ht, r1 t]
          omega
        · rw [r2, ReleaseAll_current, if_pos rfl]
          have := r1 .Default
          omega
        · intro t
          rw [r2, ReleaseAll_current]
          have := h3 t
          by_cases ht : t = .Default
          · rw [if_pos ht]; exact this
          · rw [if_neg ht]; omega
  apply key
  refine ⟨?_, ?_, ?_⟩
  · intro t _; cases t <;> rfl
  · decide
  · intro t; cases t <;> simp [PeerSendQueues.empty, MessageRateLimits.current]

/-! ## Accounting of the rate limits (C1) -/

/-- C1 (accounting invariant P1), evaluated on the code: after a normal message of
100 bytes whose type falls under the `default` label has been enqueued and packed,
all three queues are empty, so the queued bytes of class `Default` are 0, but the
`Default` counter still reads 100; the same two calls with an
`ExtenderCommunication` message bring that class's counter back to 0.  The switch
of `RemoveMessage` has no `Subtract` under `default`, while the switch of
`AddMessage` adds under `default`. -/
theorem Run_default_bytes_not_released :
    (Run ScenarioEnv (RoundTripCalls (.Other 0))).m_NormalQueue = [] ∧
    (Run ScenarioEnv (RoundTripCalls (.Other 0))).m_ExpeditedQueue = [] ∧
    (Run ScenarioEnv (RoundTripCalls (.Other 0))).m_DelayedQueue = [] ∧
    QueuedBytes .Default (Run ScenarioEnv (RoundTripCalls (.Other 0))) = 0 ∧
    (Run ScenarioEnv (RoundTripCalls (.Other 0))).m_RateLimits.current .Default = 100 ∧
    (Run ScenarioEnv (RoundTripCalls .ExtenderCommunication)).m_RateLimits.current
      .ExtenderCommunication = 0 := by
  decide

/-! ## Enqueue (C2, C3) -/

/-- C2 (admission rejection is atomic): if the rate limiter cannot admit the size of
the message in the class of its type, `AddMessage` returns `PeerSendBufferFull`; and
whenever `AddMessage` returns `PeerSendBufferFull`, the object it leaves (the three
queues and all four counters) is the object it was called on. -/
theorem AddMessage_rejection_atomic (env : Env) (self : PeerSendQueues) (msg : Message)
    (priority : PriorityOption) (delay : Milliseconds) (now : SteadyTime) (pushOk : Bool) :
    (self.m_RateLimits.CanAdd env (RateLimitTypeOf msg.GetMessageType)
        (GetSize msg.GetMessageData) = false →
      (AddMessage env self msg priority delay now pushOk).1 = ResultCode.PeerSendBufferFull) ∧
    ((AddMessage env self msg priority delay now pushOk).1 = ResultCode.PeerSendBufferFull →
      (AddMessage env self msg priority delay now pushOk).2 = self) := by
  rw [AddMessage_eq_Impl]
  constructor
  · intro h
    rw [AddMessageImpl_full env _ self msg priority delay now pushOk h]
  · intro h
    apply AddMessageImpl_unchanged_of_ne
    rw [h]
    decide

/-- Witness of C2 (scenario 5 of section 8): with the noise class at its limit of
500 bytes, a further noise message of one byte is refused and nothing changes. -/
theorem AddMessage_rejection_atomic_witness :
    NoiseFullQueues.m_RateLimits.CanAdd ScenarioEnv
      (RateLimitTypeOf (ZeroMessage .Noise 1).GetMessageType)
      (GetSize (ZeroMessage .Noise 1).GetMessageData) = false ∧
    (AddMessage ScenarioEnv NoiseFullQueues (ZeroMessage .Noise 1) .Delayed 10 0 true).1 =
      ResultCode.PeerSendBufferFull ∧
    (AddMessage ScenarioEnv NoiseFullQueues (ZeroMessage .Noise 1) .Delayed 10 0 true).2 =
      NoiseFullQueues :=
  ⟨by decide,
    (AddMessage_rejection_atomic ScenarioEnv NoiseFullQueues (ZeroMessage .Noise 1)
      .Delayed 10 0 true).1 (by decide),
    (AddMessage_rejection_atomic ScenarioEnv NoiseFullQueues (ZeroMessage .Noise 1)
      .Delayed 10 0 true).2
      ((AddMessage_rejection_atomic ScenarioEnv NoiseFullQueues (ZeroMessage .Noise 1)
        .Delayed 10 0 true).1 (by decide))⟩

/-- C3 (successful enqueue): if the rate limiter can admit the size of `msg` in the
class of its type and the push does not fail, `AddMessage` returns `Succeeded`; the
queue selected by the priority is its old content with `msg` appended at the back
(for `Delayed`, with the entry `DelayedMessage{msg, now, delay}`) and the other two
queues are unchanged; the counter of the class of the type grows by exactly the
size of `msg` and every other counter is unchanged.  The class of a type is
`ExtenderCommunication`, `Noise`, `RelayData` for these three types and `Default`
for every other type. -/
theorem AddMessage_succeeds (env : Env) (self : PeerSendQueues) (msg : Message)
    (priority : PriorityOption) (delay : Milliseconds) (now : SteadyTime)
    (hcan : self.m_RateLimits.CanAdd env (RateLimitTypeOf msg.GetMessageType)
      (GetSize msg.GetMessageData) = true) :
    (AddMessage env self msg priority delay now true).1 = ResultCode.Succeeded ∧
    (AddMessage env self msg priority delay now true).2.m_NormalQueue =
      (if priority = .Normal then self.m_NormalQueue ++ [msg] else self.m_NormalQueue) ∧
    (AddMessage env self msg priority delay now true).2.m_ExpeditedQueue =
      (if priority = .Expedited then self.m_ExpeditedQueue ++ [msg]
        else self.m_ExpeditedQueue) ∧
    (AddMessage env self msg priority delay now true).2.m_DelayedQueue =
      (if priority = .Delayed then self.m_DelayedQueue ++ [⟨msg, now, delay⟩]
        else self.m_DelayedQueue) ∧
    (∀ t : RateLimitType,
      (AddMessage env self msg priority delay now true).2.m_RateLimits.current t =
        if t = RateLimitTypeOf msg.GetMessageType then
          self.m_RateLimits.current t + GetSize msg.GetMessageData
        else self.m_RateLimits.current t) ∧
    RateLimitTypeOf .ExtenderCommunication = .ExtenderCommunication ∧
    RateLimitTypeOf .Noise = .Noise ∧
    RateLimitTypeOf .RelayData = .RelayData ∧
    (∀ code, RateLimitTypeOf (.Other code) = .Default) := by
  rw [AddMessage_eq_Impl, AddMessageImpl_ok env _ self msg priority delay now hcan]
  refine ⟨rfl, ?_, ?_, ?_, ?_, rfl, rfl, rfl, fun _ => rfl⟩
  · cases priority <;> simp
  · cases priority <;> simp
  · cases priority <;> simp
  · intro t
    cases priority <;> simp [current_Add]

/-- Witness of C3: a noise message of 10 bytes, delayed by 100 ms at time 7, is
accepted by the scheduler that already holds a normal and an expedited message. -/
theorem AddMessage_succeeds_witness :
    ExpeditedAndNormalQueues.m_RateLimits.CanAdd ScenarioEnv
      (RateLimitTypeOf (ZeroMessage .Noise 10).GetMessageType)
      (GetSize (ZeroMessage .Noise 10).GetMessageData) = true ∧
    (AddMessage ScenarioEnv ExpeditedAndNormalQueues (ZeroMessage .Noise 10) .Delayed 100 7
      true).1 = ResultCode.Succeeded ∧
    (AddMessage ScenarioEnv ExpeditedAndNormalQueues (ZeroMessage .Noise 10) .Delayed 100 7
      true).2.m_DelayedQueue =
      ExpeditedAndNormalQueues.m_DelayedQueue ++ [⟨ZeroMessage .Noise 10, 7, 100⟩] ∧
    (AddMessage ScenarioEnv ExpeditedAndNormalQueues (ZeroMessage .Noise 10) .Delayed 100 7
      true).2.m_RateLimits.current .Noise = 10 :=
  ⟨by decide,
    (AddMessage_succeeds ScenarioEnv ExpeditedAndNormalQueues (ZeroMessage .Noise 10)
      .Delayed 100 7 (by decide)).1,
    (AddMessage_succeeds ScenarioEnv ExpeditedAndNormalQueues (ZeroMessage .Noise 10)
      .Delayed 100 7 (by decide)).2.2.2.1,
    (AddMessage_succeeds ScenarioEnv ExpeditedAndNormalQueues (ZeroMessage .Noise 10)
      .Delayed 100 7 (by decide)).2.2.2.2.1 .Noise⟩

/-! ## The expedited path (C4) and the frame limit (C5) -/

/-- C4 (expedited exclusivity, P4): when the expedited queue is non-empty, with front
`m`, then for every key, either value of `concatenate` and every buffer,
`GetMessages` leaves the normal and the delayed queue unchanged, returns a count of
at most 1, and leaves in the buffer what the one `Write` of `m` leaves there (no
other message is written); if that `Write` succeeds the result is `(true, 1)` and
the expedited queue has lost exactly its front element; if it fails the result is
`(false, 0)` and the whole object is unchanged. -/
theorem GetMessages_expedited_exclusive (env : Env) (self : PeerSendQueues) (buffer : Buffer)
    (symkey : SymmetricKeyData) (concatenate : Bool) (now : SteadyTime)
    (m : Message) (rest : List Message) (hq : self.m_ExpeditedQueue = m :: rest) :
    (GetMessages env self buffer symkey concatenate now).queues.m_NormalQueue =
      self.m_NormalQueue ∧
    (GetMessages env self buffer symkey concatenate now).queues.m_DelayedQueue =
      self.m_DelayedQueue ∧
    (GetMessages env self buffer symkey concatenate now).num ≤ 1 ∧
    (GetMessages env self buffer symkey concatenate now).buffer =
      (env.Write m buffer symkey).2 ∧
    ((env.Write m buffer symkey).1 = true →
      (GetMessages env self buffer symkey concatenate now).success = true ∧
      (GetMessages env self buffer symkey concatenate now).num = 1 ∧
      (GetMessages env self buffer symkey concatenate now).queues.m_ExpeditedQueue = rest) ∧
    ((env.Write m buffer symkey).1 = false →
      (GetMessages env self buffer symkey concatenate now).success = false ∧
      (GetMessages env self buffer symkey concatenate now).num = 0 ∧
      (GetMessages env self buffer symkey concatenate now).queues = self) := by
  rw [GetMessages_of_expedited env self buffer symkey concatenate now m rest hq]
  cases hw : (env.Write m buffer symkey).1
  · rw [GetExpeditedMessages_writeError env self buffer symkey m rest hq hw]
    simp
  · rw [GetExpeditedMessages_written env self buffer symkey m rest hq hw]
    simp

/-- Witness of C4 (scenario 3 of section 8): with a normal message of 80 bytes and
an expedited message of 50 bytes queued, packing with `concatenate = true` gives
`(true, 1)`, a buffer of 50 bytes, an empty expedited queue and the normal message
still queued. -/
theorem GetMessages_expedited_exclusive_witness :
    ExpeditedAndNormalQueues.m_ExpeditedQueue = ZeroMessage (.Other 1) 50 :: [] ∧
    (ScenarioEnv.Write (ZeroMessage (.Other 1) 50) [] 0).1 = true ∧
    (GetMessages ScenarioEnv ExpeditedAndNormalQueues [] 0 true 0).queues.m_NormalQueue =
      [ZeroMessage (.Other 0) 80] ∧
    GetSize (GetMessages ScenarioEnv ExpeditedAndNormalQueues [] 0 true 0).buffer = 50 ∧
    ((GetMessages ScenarioEnv ExpeditedAndNormalQueues [] 0 true 0).success = true ∧
      (GetMessages ScenarioEnv ExpeditedAndNormalQueues [] 0 true 0).num = 1 ∧
      (GetMessages ScenarioEnv ExpeditedAndNormalQueues [] 0 true 0).queues.m_ExpeditedQueue =
        []) :=
  ⟨by decide, by decide,
    (GetMessages_expedited_exclusive ScenarioEnv ExpeditedAndNormalQueues [] 0 true 0
      (ZeroMessage (.Other 1) 50) [] (by decide)).1.trans (by decide),
    by
      rw [(GetMessages_expedited_exclusive ScenarioEnv ExpeditedAndNormalQueues [] 0 true 0
        (ZeroMessage (.Other 1) 50) [] (by decide)).2.2.2.1]
      decide,
    (GetMessages_expedited_exclusive ScenarioEnv ExpeditedAndNormalQueues [] 0 true 0
      (ZeroMessage (.Other 1) 50) [] (by decide)).2.2.2.2.1 (by decide)⟩

/-- C5 as stated fails: on the scheduler that holds one expedited message of 201
bytes (accepted by `AddMessage`, the class limit being 1000), `GetMessages` called
with an empty buffer, which is within the frame limit of 200, leaves a buffer of
201 bytes. -/
theorem GetMessages_expedited_exceeds_limit :
    GetSize [] ≤ ScenarioEnv.MaxMessageDataSize ∧
    OversizedExpeditedQueues.m_ExpeditedQueue = [ZeroMessage (.Other 0) 201] ∧
    (GetMessages ScenarioEnv OversizedExpeditedQueues [] 0 true 0).success = true ∧
    GetSize (GetMessages ScenarioEnv OversizedExpeditedQueues [] 0 true 0).buffer = 201 ∧
    ¬ GetSize (GetMessages ScenarioEnv OversizedExpeditedQueues [] 0 true 0).buffer ≤
      ScenarioEnv.MaxMessageDataSize := by
  decide

/-- C5 amended (frame size cap, P7): if the buffer holds at most
`MaxMessageDataSize` bytes on entry and the expedited queue is empty, or what the
`Write` of its front message leaves in the buffer is within `MaxMessageDataSize`,
then the buffer holds at most `MaxMessageDataSize` bytes after `GetMessages`, for
every key and either value of `concatenate`.  The normal and the delayed loop
test the size before each append; the expedited path has no such test. -/
theorem GetMessages_buffer_le (env : Env) (self : PeerSendQueues) (buffer : Buffer)
    (symkey : SymmetricKeyData) (concatenate : Bool) (now : SteadyTime)
    (hb : GetSize buffer ≤ env.MaxMessageDataSize)
    (hexp : ∀ m ∈ self.m_ExpeditedQueue.head?,
      GetSize (env.Write m buffer symkey).2 ≤ env.MaxMessageDataSize) :
    GetSize (GetMessages env self buffer symkey concatenate now).buffer ≤
      env.MaxMessageDataSize := by
  cases hq : self.m_ExpeditedQueue with
  | cons m rest =>
    have hm : GetSize (env.Write m buffer symkey).2 ≤ env.MaxMessageDataSize :=
      hexp m (by simp [hq])
    rw [GetMessages_of_expedited env self buffer symkey concatenate now m rest hq]
    cases hw : (env.Write m buffer symkey).1
    · rw [GetExpeditedMessages_writeError env self buffer symkey m rest hq hw]; exact hm
    · rw [GetExpeditedMessages_written env self buffer symkey m rest hq hw]; exact hm
  | nil =>
    have hn : GetSize (NormalPhase env self buffer symkey concatenate).buffer ≤
        env.MaxMessageDataSize :=
      NormalLoop_buffer_le env symkey concatenate self.m_NormalQueue self.m_RateLimits [] buffer
        0 hb
    by_cases hgo : (NormalPhase env self buffer symkey concatenate).success = true ∧
        (NormalPhase env self buffer symkey concatenate).stop = false
    · rw [GetMessages_delayedPhase env self buffer symkey concatenate now hq hgo.1 hgo.2]
      exact DelayedLoop_buffer_le env symkey concatenate now self.m_DelayedQueue _ _ _ _ hn
    · have hs : (NormalPhase env self buffer symkey concatenate).success = false ∨
          (NormalPhase env self buffer symkey concatenate).stop = true := by
        cases h1 : (NormalPhase env self buffer symkey concatenate).success
        · exact Or.inl rfl
        · cases h2 : (NormalPhase env self buffer symkey concatenate).stop
          · exact absurd ⟨h1, h2⟩ hgo
          · exact Or.inr rfl
      rw [GetMessages_normalOnly env self buffer symkey concatenate now hq hs]
      exact hn

/-- Witness of C5 amended: two normal messages of 150 and 100 bytes, an empty
buffer and a frame limit of 200; the buffer after the call is within the limit. -/
theorem GetMessages_buffer_le_witness :
    GetSize [] ≤ ScenarioEnv.MaxMessageDataSize ∧
    (∀ m ∈ TwoNormalQueues.m_ExpeditedQueue.head?,
      GetSize (ScenarioEnv.Write m [] 0).2 ≤ ScenarioEnv.MaxMessageDataSize) ∧
    GetSize (GetMessages ScenarioEnv TwoNormalQueues [] 0 true 0).buffer ≤
      ScenarioEnv.MaxMessageDataSize :=
  ⟨by decide, (by intro m hm; cases hm),
    GetMessages_buffer_le ScenarioEnv TwoNormalQueues [] 0 true 0 (by decide)
      (by intro m hm; cases hm)⟩

/-! ## Order of emission (C6) -/

/-- No `Write` gives the framed bytes on both paths of `GetMessages`: if the `Write`
of `m2` into a buffer that holds the framed bytes of `m1` both extends that
buffer by the framed bytes of `m2` (what the expedited path needs, which writes
into the caller's buffer) and leaves the framed bytes of `m2` alone (what the
loops need, which append the whole scratch buffer after every `Write`), then
the framed bytes of `m1` are empty. -/
theorem Write_extends_and_replaces (env : Env) (symkey : SymmetricKeyData) (m1 m2 : Message)
    (hext : (env.Write m2 (Framed env symkey m1) symkey).2 =
      Framed env symkey m1 ++ Framed env symkey m2)
    (hrep : (env.Write m2 (Framed env symkey m1) symkey).2 = Framed env symkey m2) :
    Framed env symkey m1 = [] := by
  rw [hrep] at hext
  have h := congrArg List.length hext
  simp only [List.length_append] at h
  exact List.length_eq_zero.mp (by omega)

/-- With concatenation, the normal loop packs a front part `pn` of its queue whose
messages are all written and all fit, and goes on with the rest. -/
theorem NormalLoop_packs (env : Env) (symkey : SymmetricKeyData) (pn q : List Message) :
    ∀ (rl : MessageRateLimits) (t b : Buffer) (n : Nat),
    PacksAll env symkey b t pn = true →
    NormalLoop env symkey true (pn ++ q) rl t b n =
      NormalLoop env symkey true q (ReleaseAll rl pn) (ScratchAfter env symkey t pn)
        (b ++ Appended env symkey t pn) (n + pn.length) := by
  induction pn with
  | nil => intro rl t b n _; simp [ReleaseAll, ScratchAfter, Appended]
  | cons m ms ih =>
    intro rl t b n h
    simp only [PacksAll, Bool.and_eq_true, decide_eq_true_eq] at h
    obtain ⟨⟨hw, hfit⟩, hrest⟩ := h
    rw [List.cons_append, NormalLoop_next env symkey m (ms ++ q) rl t b n hw hfit,
      ih _ _ _ _ hrest]
    simp only [ReleaseAll, ScratchAfter, Appended, List.length_cons, List.append_assoc]
    congr 1
    omega

/-- With concatenation, the delayed loop packs a front part `pd` of its queue whose
entries are all ready, all written and all fit, and goes on with the rest. -/
theorem DelayedLoop_packs (env : Env) (symkey : SymmetricKeyData) (now : SteadyTime)
    (pd q : List DelayedMessage) :
    ∀ (rl : MessageRateLimits) (t b : Buffer) (n : Nat),
    (∀ d ∈ pd, d.IsTime now = true) →
    PacksAll env symkey b t (pd.map DelayedMessage.Message) = true →
    DelayedLoop env symkey true now (pd ++ q) rl t b n =
      DelayedLoop env symkey true now q (ReleaseAll rl (pd.map DelayedMessage.Message))
        (ScratchAfter env symkey t (pd.map DelayedMessage.Message))
        (b ++ Appended env symkey t (pd.map DelayedMessage.Message)) (n + pd.length) := by
  induction pd with
  | nil => intro rl t b n _ _; simp [ReleaseAll, ScratchAfter, Appended]
  | cons d ds ih =>
    intro rl t b n hready h
    simp only [List.map_cons, PacksAll, Bool.and_eq_true, decide_eq_true_eq] at h
    obtain ⟨⟨hw, hfit⟩, hrest⟩ := h
    have ht : d.IsTime now = true := hready d (List.mem_cons_self d ds)
    have hready2 : ∀ x ∈ ds, x.IsTime now = true :=
      fun x hx => hready x (List.mem_cons_of_mem d hx)
    rw [List.cons_append, DelayedLoop_next env symkey now d (ds ++ q) rl t b n ht hw hfit,
      ih _ _ _ _ hready2 hrest]
    simp only [List.map_cons, ReleaseAll, ScratchAfter, Appended, List.length_cons,
      List.append_assoc]
    congr 1
    omega

theorem PacksAll_append (env : Env) (symkey : SymmetricKeyData) (a c : List Message) :
    ∀ (b t : Buffer), PacksAll env symkey b t (a ++ c) =
      (PacksAll env symkey b t a &&
        PacksAll env symkey (b ++ Appended env symkey t a) (ScratchAfter env symkey t a) c) := by
  induction a with
  | nil => intro b t; simp [PacksAll, Appended, ScratchAfter]
  | cons x xs ih =>
    intro b t
    simp [PacksAll, Appended, ScratchAfter, ih, Bool.and_assoc]

/-- The normal loop as `GetMessages` starts it, when a front part `pn` of the
normal queue is packed (`pn` empty, or concatenation allowed). -/
theorem NormalPhase_packs (env : Env) (self : PeerSendQueues) (buffer : Buffer)
    (symkey : SymmetricKeyData) (concatenate : Bool) (pn q : List Message)
    (hn : self.m_NormalQueue = pn ++ q) (hc : pn = [] ∨ concatenate = true)
    (hp : PacksAll env symkey buffer [] pn = true) :
    NormalPhase env self buffer symkey concatenate =
      NormalLoop env symkey concatenate q (ReleaseAll self.m_RateLimits pn)
        (ScratchAfter env symkey [] pn) (buffer ++ Appended env symkey [] pn) pn.length := by
  unfold NormalPhase
  rw [hn]
  rcases hc with hc | hc
  · subst hc
    simp [ReleaseAll, ScratchAfter, Appended]
  · subst hc
    rw [NormalLoop_packs env symkey pn q _ _ _ _ hp]
    simp

/-- Both loops as `GetMessages` starts them, when the whole normal queue and a
front part `pd` of the delayed queue are packed. -/
theorem DelayedPhase_packs (env : Env) (self : PeerSendQueues) (buffer : Buffer)
    (symkey : SymmetricKeyData) (concatenate : Bool) (now : SteadyTime)
    (pd q : List DelayedMessage) (hd : self.m_DelayedQueue = pd ++ q)
    (hc : (self.m_NormalQueue = [] ∧ pd = []) ∨ concatenate = true)
    (hready : ∀ d ∈ pd, d.IsTime now = true)
    (hp : PacksAll env symkey buffer []
      (self.m_NormalQueue ++ pd.map DelayedMessage.Message) = true) :
    NormalPhase env self buffer symkey concatenate =
      ⟨true, false, self.m_NormalQueue.length, ScratchAfter env symkey [] self.m_NormalQueue,
        buffer ++ Appended env symkey [] self.m_NormalQueue, [],
        ReleaseAll self.m_RateLimits self.m_NormalQueue⟩ ∧
    DelayedPhase env self buffer symkey concatenate now =
      DelayedLoop env symkey concatenate now q
        (ReleaseAll self.m_RateLimits (self.m_NormalQueue ++ pd.map DelayedMessage.Message))
        (ScratchAfter env symkey [] (self.m_NormalQueue ++ pd.map DelayedMessage.Message))
        (buffer ++
          Appended env symkey [] (self.m_NormalQueue ++ pd.map DelayedMessage.Message))
        (self.m_NormalQueue.length + pd.length) := by
  rw [PacksAll_append, Bool.and_eq_true] at hp
  have hcn : self.m_NormalQueue = [] ∨ concatenate = true := by
    rcases hc with hc | hc
    · exact Or.inl hc.1
    · exact Or.inr hc
  have hN : NormalPhase env self buffer symkey concatenate =
      ⟨true, false, self.m_NormalQueue.length, ScratchAfter env symkey [] self.m_NormalQueue,
        buffer ++ Appended env symkey [] self.m_NormalQueue, [],
        ReleaseAll self.m_RateLimits self.m_NormalQueue⟩ := by
    rw [NormalPhase_packs env self buffer symkey concatenate self.m_NormalQueue []
      (by simp) hcn hp.1, NormalLoop_nil]
  refine ⟨hN, ?_⟩
  unfold DelayedPhase
  rw [hN, hd]
  simp only
  rcases hc with hc | hc
  · rw [hc.2, hc.1]
    simp [ReleaseAll, ScratchAfter, Appended]
  · subst hc
    rw [DelayedLoop_packs env symkey now pd q _ _ _ _ hready hp.2, ReleaseAll_append,
      ScratchAfter_append, Appended_append, List.append_assoc]

/-! ## Framing failures (C7, C8) -/

/-- C7 (a framing failure leaves the offending message queued).  For every state,
buffer, key, flag and clock reading:
(1) if the `Write` of the front expedited message fails, the result is `(false, 0)`
and the object is unchanged;
(2) if the expedited queue is empty, the messages `pn` in front of `m` in the
normal queue are all packed (`pn` empty, or concatenation allowed) and the `Write`
of `m`, then at the head of the normal queue, fails, then `success` is false, `m`
is still at the head of the normal queue, the delayed queue is not visited, and
the counters have released the packed messages `pn` only;
(3) if the expedited queue is empty, the whole normal queue and the entries `pd`
in front of `d` in the delayed queue are packed and the `Write` of the ready entry
`d` fails, then `success` is false, `d` is still at the head of the delayed queue
and the counters have released the packed messages only.
With `pn` empty, (2) is scenario 6 of section 8: the result is `(false, 0)` and
queues, counters and buffer are unchanged. -/
theorem GetMessages_writeError_keeps_message (env : Env) (self : PeerSendQueues)
    (buffer : Buffer) (symkey : SymmetricKeyData) (concatenate : Bool) (now : SteadyTime) :
    (∀ m rest, self.m_ExpeditedQueue = m :: rest → (env.Write m buffer symkey).1 = false →
      GetMessages env self buffer symkey concatenate now =
        ⟨false, 0, (env.Write m buffer symkey).2, self⟩) ∧
    (∀ pn m rest, self.m_ExpeditedQueue = [] → self.m_NormalQueue = pn ++ m :: rest →
      (pn = [] ∨ concatenate = true) → PacksAll env symkey buffer [] pn = true →
      (env.Write m (ScratchAfter env symkey [] pn) symkey).1 = false →
      GetMessages env self buffer symkey concatenate now =
        ⟨false, pn.length, buffer ++ Appended env symkey [] pn,
          { self with
            m_NormalQueue := m :: rest
            m_RateLimits := ReleaseAll self.m_RateLimits pn }⟩) ∧
    (∀ pd d rest, self.m_ExpeditedQueue = [] → self.m_DelayedQueue = pd ++ d :: rest →
      ((self.m_NormalQueue = [] ∧ pd = []) ∨ concatenate = true) →
      PacksAll env symkey buffer []
        (self.m_NormalQueue ++ pd.map DelayedMessage.Message) = true →
      (∀ x ∈ pd, x.IsTime now = true) → d.IsTime now = true →
      (env.Write d.Message
        (ScratchAfter env symkey [] (self.m_NormalQueue ++ pd.map DelayedMessage.Message))
        symkey).1 = false →
      GetMessages env self buffer symkey concatenate now =
        ⟨false, self.m_NormalQueue.length + pd.length,
          buffer ++
            Appended env symkey [] (self.m_NormalQueue ++ pd.map DelayedMessage.Message),
          { self with
            m_NormalQueue := []
            m_DelayedQueue := d :: rest
            m_RateLimits := ReleaseAll self.m_RateLimits
              (self.m_NormalQueue ++ pd.map DelayedMessage.Message) }⟩) := by
  refine ⟨?_, ?_, ?_⟩
  · intro m rest hq hw
    rw [GetMessages_of_expedited env self buffer symkey concatenate now m rest hq,
      GetExpeditedMessages_writeError env self buffer symkey m rest hq hw]
  · intro pn m rest hq hn hc hp hw
    have hN := NormalPhase_packs env self buffer symkey concatenate pn (m :: rest) hn hc hp
    rw [NormalLoop_writeError env symkey concatenate m rest _ _ _ _ hw] at hN
    rw [GetMessages_normalOnly env self buffer symkey concatenate now hq
      (Or.inl (by rw [hN])), hN]
  · intro pd d rest hq hd hc hp hready ht hw
    obtain ⟨hN, hD⟩ :=
      DelayedPhase_packs env self buffer symkey concatenate now pd (d :: rest) hd hc hready hp
    rw [DelayedLoop_writeError env symkey concatenate now d rest _ _ _ _ ht hw] at hD
    rw [GetMessages_delayedPhase env self buffer symkey concatenate now hq
      (by rw [hN]) (by rw [hN]), hD, hN]

/-- Witness of C7 (scenario 6 of section 8): one normal noise message of 80 bytes
is queued and every `Write` fails; the result is `(false, 0)`, the buffer, the
queues and the counters are as before the call. -/
theorem GetMessages_writeError_keeps_message_witness :
    OneNormalQueues.m_ExpeditedQueue = [] ∧
    OneNormalQueues.m_NormalQueue = [] ++ ZeroMessage .Noise 80 :: [] ∧
    (FailingEnv.Write (ZeroMessage .Noise 80) (ScratchAfter FailingEnv 0 [] []) 0).1 = false ∧
    OneNormalQueues.m_RateLimits.current .Noise = 80 ∧
    GetMessages FailingEnv OneNormalQueues [] 0 true 0 = ⟨false, 0, [], OneNormalQueues⟩ :=
  ⟨by decide, by decide, by decide, by decide,
    ((GetMessages_writeError_keeps_message FailingEnv OneNormalQueues [] 0 true 0).2.1
      [] (ZeroMessage .Noise 80) [] (by decide) (by decide) (Or.inl rfl) (by decide)
      (by decide)).trans (by decide)⟩

/-- C8 (`success = false` only on a framing error).  For every state, buffer, key,
flag and clock reading:
(1) if `GetMessages` returns `success = false`, then a `Write` made during the call
failed on the message that is at the head of the expedited, the normal or the
delayed queue after the call (on the caller's buffer for the expedited queue, on
the scratch buffer as the messages packed before left it for the other two);
(2) hence if every `Write` succeeds, `success` is true;
(3) when the normal loop stops because the next message, written successfully,
does not fit, `success` is true and that message stays queued;
(4) when the delayed loop stops because the next entry, written successfully,
does not fit, `success` is true and that entry stays queued;
(5) when the delayed loop stops because the front entry is not ready, `success` is
true and that entry stays queued. -/
theorem GetMessages_failure_only_on_writeError (env : Env) (self : PeerSendQueues)
    (buffer : Buffer) (symkey : SymmetricKeyData) (concatenate : Bool) (now : SteadyTime) :
    ((GetMessages env self buffer symkey concatenate now).success = false →
      (∃ m rest, self.m_ExpeditedQueue = m :: rest ∧
        (GetMessages env self buffer symkey concatenate now).queues.m_ExpeditedQueue =
          m :: rest ∧
        (env.Write m buffer symkey).1 = false) ∨
      (self.m_ExpeditedQueue = [] ∧ ∃ pn m rest, self.m_NormalQueue = pn ++ m :: rest ∧
        (GetMessages env self buffer symkey concatenate now).queues.m_NormalQueue =
          m :: rest ∧
        (env.Write m (ScratchAfter env symkey [] pn) symkey).1 = false) ∨
      (self.m_ExpeditedQueue = [] ∧ ∃ pd d rest, self.m_DelayedQueue = pd ++ d :: rest ∧
        (GetMessages env self buffer symkey concatenate now).queues.m_DelayedQueue =
          d :: rest ∧
        d.IsTime now = true ∧
        (env.Write d.Message
          (ScratchAfter env symkey [] (self.m_NormalQueue ++ pd.map DelayedMessage.Message))
          symkey).1 = false)) ∧
    ((∀ m t, (env.Write m t symkey).1 = true) →
      (GetMessages env self buffer symkey concatenate now).success = true) ∧
    (∀ pn m rest, self.m_ExpeditedQueue = [] → self.m_NormalQueue = pn ++ m :: rest →
      (pn = [] ∨ concatenate = true) → PacksAll env symkey buffer [] pn = true →
      (env.Write m (ScratchAfter env symkey [] pn) symkey).1 = true →
      ¬ GetSize (buffer ++ Appended env symkey [] pn) +
          GetSize (env.Write m (ScratchAfter env symkey [] pn) symkey).2 ≤
        env.MaxMessageDataSize →
      GetMessages env self buffer symkey concatenate now =
        ⟨true, pn.length, buffer ++ Appended env symkey [] pn,
          { self with
            m_NormalQueue := m :: rest
            m_RateLimits := ReleaseAll self.m_RateLimits pn }⟩) ∧
    (∀ pd d rest, self.m_ExpeditedQueue = [] → self.m_DelayedQueue = pd ++ d :: rest →
      ((self.m_NormalQueue = [] ∧ pd = []) ∨ concatenate = true) →
      PacksAll env symkey buffer []
        (self.m_NormalQueue ++ pd.map DelayedMessage.Message) = true →
      (∀ x ∈ pd, x.IsTime now = true) → d.IsTime now = true →
      (env.Write d.Message
        (ScratchAfter env symkey [] (self.m_NormalQueue ++ pd.map DelayedMessage.Message))
        symkey).1 = true →
      ¬ GetSize (buffer ++
            Appended env symkey [] (self.m_NormalQueue ++ pd.map DelayedMessage.Message)) +
          GetSize (env.Write d.Message
            (ScratchAfter env symkey []
              (self.m_NormalQueue ++ pd.map DelayedMessage.Message)) symkey).2 ≤
        env.MaxMessageDataSize →
      GetMessages env self buffer symkey concatenate now =
        ⟨true, self.m_NormalQueue.length + pd.length,
          buffer ++
            Appended env symkey [] (self.m_NormalQueue ++ pd.map DelayedMessage.Message),
          { self with
            m_NormalQueue := []
            m_DelayedQueue := d :: rest
            m_RateLimits := ReleaseAll self.m_RateLimits
              (self.m_NormalQueue ++ pd.map DelayedMessage.Message) }⟩) ∧
    (∀ pd d rest, self.m_ExpeditedQueue = [] → self.m_DelayedQueue = pd ++ d :: rest →
      ((self.m_NormalQueue = [] ∧ pd = []) ∨ concatenate = true) →
      PacksAll env symkey buffer []
        (self.m_NormalQueue ++ pd.map DelayedMessage.Message) = true →
      (∀ x ∈ pd, x.IsTime now = true) → d.IsTime now = false →
      GetMessages env self buffer symkey concatenate now =
        ⟨true, self.m_NormalQueue.length + pd.length,
          buffer ++
            Appended env symkey [] (self.m_NormalQueue ++ pd.map DelayedMessage.Message),
          { self with
            m_NormalQueue := []
            m_DelayedQueue := d :: rest
            m_RateLimits := ReleaseAll self.m_RateLimits
              (self.m_NormalQueue ++ pd.map DelayedMessage.Message) }⟩) := by
  have hA : (GetMessages env self buffer symkey concatenate now).success = false →
      (∃ m rest, self.m_ExpeditedQueue = m :: rest ∧
        (GetMessages env self buffer symkey concatenate now).queues.m_ExpeditedQueue =
          m :: rest ∧
        (env.Write m buffer symkey).1 = false) ∨
      (self.m_ExpeditedQueue = [] ∧ ∃ pn m rest, self.m_NormalQueue = pn ++ m :: rest ∧
        (GetMessages env self buffer symkey concatenate now).queues.m_NormalQueue =
          m :: rest ∧
        (env.Write m (ScratchAfter env symkey [] pn) symkey).1 = false) ∨
      (self.m_ExpeditedQueue = [] ∧ ∃ pd d rest, self.m_DelayedQueue = pd ++ d :: rest ∧
        (GetMessages env self buffer symkey concatenate now).queues.m_DelayedQueue =
          d :: rest ∧
        d.IsTime now = true ∧
        (env.Write d.Message
          (ScratchAfter env symkey [] (self.m_NormalQueue ++ pd.map DelayedMessage.Message))
          symkey).1 = false) := by
    intro hf
    cases hq : self.m_ExpeditedQueue with
    | cons m rest =>
      left
      rw [GetMessages_of_expedited env self buffer symkey concatenate now m rest hq] at hf ⊢
      cases hw : (env.Write m buffer symkey).1
      · rw [GetExpeditedMessages_writeError env self buffer symkey m rest hq hw]
        exact ⟨m, rest, rfl, hq, hw⟩
      · rw [GetExpeditedMessages_written env self buffer symkey m rest hq hw] at hf
        cases hf
    | nil =>
      right
      obtain ⟨pn, pd, h1, h2, _, _, _, _, _, _, _, _, h11, _⟩ :=
        GetMessages_noExpedited_spec env self buffer symkey concatenate now hq
      rcases h11 hf with ⟨_, m, rest, e1, e2⟩ | ⟨e0, d, rest, e1, e2, e3⟩
      · left
        refine ⟨rfl, pn, m, rest, ?_, e1, e2⟩
        rw [← e1]; exact h1
      · right
        refine ⟨rfl, pd, d, rest, ?_, e1, e2, ?_⟩
        · rw [← e1]; exact h2
        · rw [e0, List.append_nil] at h1
          rw [h1]; exact e3
  refine ⟨hA, ?_, ?_, ?_, ?_⟩
  · intro hall
    cases hs : (GetMessages env self buffer symkey concatenate now).success
    · rcases hA hs with ⟨m, _, _, _, hw⟩ | ⟨_, _, m, _, _, _, hw⟩ | ⟨_, _, d, _, _, _, _, hw⟩
      · rw [hall] at hw; cases hw
      · rw [hall] at hw; cases hw
      · rw [hall] at hw; cases hw
    · rfl
  · intro pn m rest hq hn hc hp hw hfit
    have hN := NormalPhase_packs env self buffer symkey concatenate pn (m :: rest) hn hc hp
    rw [NormalLoop_full env symkey concatenate m rest _ _ _ _ hw hfit] at hN
    rw [GetMessages_normalOnly env self buffer symkey concatenate now hq
      (Or.inr (by rw [hN])), hN]
  · intro pd d rest hq hd hc hp hready ht hw hfit
    obtain ⟨hN, hD⟩ :=
      DelayedPhase_packs env self buffer symkey concatenate now pd (d :: rest) hd hc hready hp
    rw [DelayedLoop_full env symkey concatenate now d rest _ _ _ _ ht hw hfit] at hD
    rw [GetMessages_delayedPhase env self buffer symkey concatenate now hq
      (by rw [hN]) (by rw [hN]), hD, hN]
  · intro pd d rest hq hd hc hp hready ht
    obtain ⟨hN, hD⟩ :=
      DelayedPhase_packs env self buffer symkey concatenate now pd (d :: rest) hd hc hready hp
    rw [DelayedLoop_notTime env symkey concatenate now d rest _ _ _ _ ht] at hD
    rw [GetMessages_delayedPhase env self buffer symkey concatenate now hq
      (by rw [hN]) (by rw [hN]), hD, hN]

/-- Witness of C8, part (3): normal messages of 150 and 100 bytes and a frame
limit of 200; the first is packed, the second is written but does not fit, and
the call returns `(true, 1)` with the second message still queued. -/
theorem GetMessages_failure_only_on_writeError_witness :
    TwoNormalQueues.m_ExpeditedQueue = [] ∧
    TwoNormalQueues.m_NormalQueue =
      [ZeroMessage (.Other 0) 150] ++ ZeroMessage .RelayData 100 :: [] ∧
    PacksAll ScenarioEnv 0 [] [] [ZeroMessage (.Other 0) 150] = true ∧
    (ScenarioEnv.Write (ZeroMessage .RelayData 100)
      (ScratchAfter ScenarioEnv 0 [] [ZeroMessage (.Other 0) 150]) 0).1 = true ∧
    (GetMessages ScenarioEnv TwoNormalQueues [] 0 true 0).success = true ∧
    (GetMessages ScenarioEnv TwoNormalQueues [] 0 true 0).num = 1 ∧
    (GetMessages ScenarioEnv TwoNormalQueues [] 0 true 0).queues.m_NormalQueue =
      [ZeroMessage .RelayData 100] := by
  have h := (GetMessages_failure_only_on_writeError ScenarioEnv TwoNormalQueues [] 0 true
    0).2.2.1 [ZeroMessage (.Other 0) 150] (ZeroMessage .RelayData 100) [] (by decide)
    (by decide) (Or.inr rfl) (by decide) (by decide) (by decide)
  refine ⟨by decide, by decide, by decide, by decide, ?_, ?_, ?_⟩
  · rw [h]
  · rw [h]; rfl
  · rw [h]

/-! ## Delayed messages (C9) -/

/-- C10 (no concatenation when not allowed, P5): for every state, buffer, key and
clock reading, `GetMessages` with `concatenate = false` returns a count of at most
1, and the messages it removes, a front part of each queue, are at most one in
total, as many as the count; when the expedited queue is empty and the normal
queue is not, the delayed and the expedited queue are unchanged and the normal
queue is either unchanged or has lost exactly its front message. -/
theorem GetMessages_no_concatenation (env : Env) (self : PeerSendQueues) (buffer : Buffer)
    (symkey : SymmetricKeyData) (now : SteadyTime) :
    (GetMessages env self buffer symkey false now).num ≤ 1 ∧
    (∃ (pe pn : List Message) (pd : List DelayedMessage),
      self.m_ExpeditedQueue =
        pe ++ (GetMessages env self buffer symkey false now).queues.m_ExpeditedQueue ∧
      self.m_NormalQueue =
        pn ++ (GetMessages env self buffer symkey false now).queues.m_NormalQueue ∧
      self.m_DelayedQueue =
        pd ++ (GetMessages env self buffer symkey false now).queues.m_DelayedQueue ∧
      (GetMessages env self buffer symkey false now).num =
        pe.length + pn.length + pd.length ∧
      pe.length + pn.length + pd.length ≤ 1) ∧
    (∀ m rest, self.m_ExpeditedQueue = [] → self.m_NormalQueue = m :: rest →
      (GetMessages env self buffer symkey false now).queues.m_DelayedQueue =
        self.m_DelayedQueue ∧
      (GetMessages env self buffer symkey false now).queues.m_ExpeditedQueue = [] ∧
      ((GetMessages env self buffer symkey false now).queues.m_NormalQueue = m :: rest ∨
        (GetMessages env self buffer symkey false now).queues.m_NormalQueue = rest)) := by
  have hB : ∃ (pe pn : List Message) (pd : List DelayedMessage),
      self.m_ExpeditedQueue =
        pe ++ (GetMessages env self buffer symkey false now).queues.m_ExpeditedQueue ∧
      self.m_NormalQueue =
        pn ++ (GetMessages env self buffer symkey false now).queues.m_NormalQueue ∧
      self.m_DelayedQueue =
        pd ++ (GetMessages env self buffer symkey false now).queues.m_DelayedQueue ∧
      (GetMessages env self buffer symkey false now).num =
        pe.length + pn.length + pd.length ∧
      pe.length + pn.length + pd.length ≤ 1 := by
    cases hq : self.m_ExpeditedQueue with
    | cons m rest =>
      rw [GetMessages_of_expedited env self buffer symkey false now m rest hq]
      cases hw : (env.Write m buffer symkey).1
      · refine ⟨[], [], [], ?_⟩
        rw [GetExpeditedMessages_writeError env self buffer symkey m rest hq hw]
        simp [hq]
      · refine ⟨[m], [], [], ?_⟩
        rw [GetExpeditedMessages_written env self buffer symkey m rest hq hw]
        simp
    | nil =>
      obtain ⟨pn, pd, h1, h2, h3, h4, _, _, _, _, h9, _⟩ :=
        GetMessages_noExpedited_spec env self buffer symkey false now hq
      refine ⟨[], pn, pd, ?_, h1, h2, ?_, ?_⟩
      · rw [h3]; rfl
      · rw [h4]; simp
      · have := h9 rfl
        simpa using this
  refine ⟨?_, hB, ?_⟩
  · obtain ⟨pe, pn, pd, _, _, _, h4, h5⟩ := hB
    omega
  · intro m rest hq hn
    obtain ⟨pn, pd, h1, h2, h3, _, _, _, _, _, h9, h10, _⟩ :=
      GetMessages_noExpedited_spec env self buffer symkey false now hq
    have hpd : pd = [] := h10 rfl (by rw [hn]; exact List.cons_ne_nil m rest)
    rw [hpd, List.nil_append] at h2
    refine ⟨h2.symm, h3, ?_⟩
    have hlen := h9 rfl
    cases pn with
    | nil =>
      left
      rw [← hn]; simpa using h1.symm
    | cons x xs =>
      cases xs with
      | nil =>
        right
        rw [hn] at h1
        exact (List.cons.inj h1).2.symm
      | cons y ys =>
        simp only [List.length_cons] at hlen
        omega

/-- Witness of C10: with two normal messages of 80 bytes and a ready delayed entry
queued, a call without concatenation returns `(true, 1)`, removes the front
normal message only and leaves the delayed queue as it was. -/
theorem GetMessages_no_concatenation_witness :
    NormalAndDelayedQueues.m_ExpeditedQueue = [] ∧
    NormalAndDelayedQueues.m_NormalQueue =
      ZeroMessage (.Other 0) 80 :: [ZeroMessage .RelayData 80] ∧
    (GetMessages ScenarioEnv NormalAndDelayedQueues [] 0 false 5).num ≤ 1 ∧
    (GetMessages ScenarioEnv NormalAndDelayedQueues [] 0 false 5).queues.m_DelayedQueue =
      NormalAndDelayedQueues.m_DelayedQueue ∧
    (GetMessages ScenarioEnv NormalAndDelayedQueues [] 0 false 5).num = 1 ∧
    (GetMessages ScenarioEnv NormalAndDelayedQueues [] 0 false 5).queues.m_NormalQueue =
      [ZeroMessage .RelayData 80] :=
  ⟨by decide, by decide,
    (GetMessages_no_concatenation ScenarioEnv NormalAndDelayedQueues [] 0 5).1,
    ((GetMessages_no_concatenation ScenarioEnv NormalAndDelayedQueues [] 0 5).2.2
      (ZeroMessage (.Other 0) 80) [ZeroMessage .RelayData 80] (by decide) (by decide)).1,
    by decide, by decide⟩

/-! ## A normal message that does not fit (C11) -/

/-- C11 as stated fails: the expedited queue is empty, `concatenate` is true, the
front normal message of 150 bytes is written but does not fit behind the 100
bytes the buffer holds (limit 200), and the front delayed entry of 10 bytes is
ready, is written and would fit; `GetMessages` returns `(true, 0)` and leaves
the delayed entry queued. -/
theorem GetMessages_blocked_normal_counterexample :
    BlockedNormalQueues.m_ExpeditedQueue = [] ∧
    BlockedNormalQueues.m_NormalQueue = [ZeroMessage (.Other 0) 150] ∧
    (ScenarioEnv.Write (ZeroMessage (.Other 0) 150) [] 0).1 = true ∧
    ¬ GetSize HalfFullBuffer + GetSize (ScenarioEnv.Write (ZeroMessage (.Other 0) 150) [] 0).2 ≤
      ScenarioEnv.MaxMessageDataSize ∧
    BlockedNormalQueues.m_DelayedQueue = [⟨ZeroMessage .Noise 10, 0, 0⟩] ∧
    DelayedMessage.IsTime ⟨ZeroMessage .Noise 10, 0, 0⟩ 5 = true ∧
    (ScenarioEnv.Write (ZeroMessage .Noise 10)
      (ScenarioEnv.Write (ZeroMessage (.Other 0) 150) [] 0).2 0).1 = true ∧
    GetSize HalfFullBuffer +
        GetSize (ScenarioEnv.Write (ZeroMessage .Noise 10)
          (ScenarioEnv.Write (ZeroMessage (.Other 0) 150) [] 0).2 0).2 ≤
      ScenarioEnv.MaxMessageDataSize ∧
    GetMessages ScenarioEnv BlockedNormalQueues HalfFullBuffer 0 true 5 =
      ⟨true, 0, HalfFullBuffer, BlockedNormalQueues⟩ := by
  decide

/-- C11 amended: when the expedited queue is empty, the messages `pn` in front of
`m` in the normal queue are packed (`pn` empty, or concatenation allowed) and `m`
is written successfully but does not fit in the room left, the call ends there:
`success` is true, the count is the number of messages of `pn`, `m` stays at the
head of the normal queue, and the delayed queue is not visited, so it is
unchanged whatever its front entry is. -/
theorem GetMessages_blocked_normal_skips_delayed (env : Env) (self : PeerSendQueues)
    (buffer : Buffer) (symkey : SymmetricKeyData) (concatenate : Bool) (now : SteadyTime)
    (pn : List Message) (m : Message) (rest : List Message)
    (hq : self.m_ExpeditedQueue = []) (hn : self.m_NormalQueue = pn ++ m :: rest)
    (hc : pn = [] ∨ concatenate = true) (hp : PacksAll env symkey buffer [] pn = true)
    (hw : (env.Write m (ScratchAfter env symkey [] pn) symkey).1 = true)
    (hfit : ¬ GetSize (buffer ++ Appended env symkey [] pn) +
        GetSize (env.Write m (ScratchAfter env symkey [] pn) symkey).2 ≤
      env.MaxMessageDataSize) :
    (GetMessages env self buffer symkey concatenate now).success = true ∧
    (GetMessages env self buffer symkey concatenate now).num = pn.length ∧
    (GetMessages env self buffer symkey concatenate now).buffer =
      buffer ++ Appended env symkey [] pn ∧
    (GetMessages env self buffer symkey concatenate now).queues.m_NormalQueue = m :: rest ∧
    (GetMessages env self buffer symkey concatenate now).queues.m_DelayedQueue =
      self.m_DelayedQueue ∧
    (GetMessages env self buffer symkey concatenate now).queues.m_RateLimits =
      ReleaseAll self.m_RateLimits pn := by
  have hN := NormalPhase_packs env self buffer symkey concatenate pn (m :: rest) hn hc hp
  rw [NormalLoop_full env symkey concatenate m rest _ _ _ _ hw hfit] at hN
  rw [GetMessages_normalOnly env self buffer symkey concatenate now hq
    (Or.inr (by rw [hN])), hN]
  exact ⟨rfl, rfl, rfl, rfl, rfl, rfl⟩

/-- Witness of C11 amended: normal messages of 150 and 100 bytes and a ready
delayed entry of 10 bytes, empty buffer, limit 200; the first normal message is
packed, the second does not fit, and the delayed entry, which would fit, stays
queued. -/
theorem GetMessages_blocked_normal_skips_delayed_witness :
    (BlockedSecondQueues.m_ExpeditedQueue = [] ∧
      BlockedSecondQueues.m_NormalQueue =
        [ZeroMessage (.Other 0) 150] ++ ZeroMessage .RelayData 100 :: [] ∧
      PacksAll ScenarioEnv 0 [] [] [ZeroMessage (.Other 0) 150] = true ∧
      (ScenarioEnv.Write (ZeroMessage .RelayData 100)
        (ScratchAfter ScenarioEnv 0 [] [ZeroMessage (.Other 0) 150]) 0).1 = true) ∧
    (GetMessages ScenarioEnv BlockedSecondQueues [] 0 true 0).success = true ∧
    (GetMessages ScenarioEnv BlockedSecondQueues [] 0 true 0).num = 1 ∧
    (GetMessages ScenarioEnv BlockedSecondQueues [] 0 true 0).queues.m_DelayedQueue =
      BlockedSecondQueues.m_DelayedQueue ∧
    BlockedSecondQueues.m_DelayedQueue = [⟨ZeroMessage .Noise 10, 0, 0⟩] :=
  ⟨⟨by decide, by decide, by decide, by decide⟩,
    (GetMessages_blocked_normal_skips_delayed ScenarioEnv BlockedSecondQueues [] 0 true 0
      [ZeroMessage (.Other 0) 150] (ZeroMessage .RelayData 100) [] (by decide) (by decide)
      (Or.inr rfl) (by decide) (by decide) (by decide)).1,
    (GetMessages_blocked_normal_skips_delayed ScenarioEnv BlockedSecondQueues [] 0 true 0
      [ZeroMessage (.Other 0) 150] (ZeroMessage .RelayData 100) [] (by decide) (by decide)
      (Or.inr rfl) (by decide) (by decide) (by decide)).2.1,
    (GetMessages_blocked_normal_skips_delayed ScenarioEnv BlockedSecondQueues [] 0 true 0
      [ZeroMessage (.Other 0) 150] (ZeroMessage .RelayData 100) [] (by decide) (by decide)
      (Or.inr rfl) (by decide) (by decide) (by decide)).2.2.2.2.1,
    by decide⟩

/-! ## Admission and the frame limit (C13) -/

/-- C13 as stated fails: a normal message of 201 bytes, whose framed size of 201
exceeds the frame limit of 200, is accepted by `AddMessage` on the empty
scheduler: the call returns `Succeeded`, the message is in the normal queue and
its 201 bytes are counted. -/
theorem AddMessage_accepts_oversized :
    ScenarioEnv.MaxMessageDataSize < GetSize (Framed ScenarioEnv 0 (ZeroMessage (.Other 0) 201)) ∧
    (AddMessage ScenarioEnv PeerSendQueues.empty (ZeroMessage (.Other 0) 201) .Normal 0 0
      true).1 = ResultCode.Succeeded ∧
    (AddMessage ScenarioEnv PeerSendQueues.empty (ZeroMessage (.Other 0) 201) .Normal 0 0
      true).2.m_NormalQueue = [ZeroMessage (.Other 0) 201] ∧
    (AddMessage ScenarioEnv PeerSendQueues.empty (ZeroMessage (.Other 0) 201) .Normal 0 0
      true).2.m_RateLimits.current .Default = 201 := by
  decide

/-- C13 amended: `AddMessage` admits on the rate limit alone.  For every state and
every message, also one whose framed size under a key exceeds
`MaxMessageDataSize`: if the rate limiter has room for the bytes of the message
and the push does not fail, `AddMessage` returns `Succeeded` and the message is
at the back of the queue its priority selects; if the rate limiter has no room,
`AddMessage` returns `PeerSendBufferFull`.  No frame size enters the result. -/
theorem AddMessage_ignores_frame_size (env : Env) (self : PeerSendQueues) (msg : Message)
    (priority : PriorityOption) (delay : Milliseconds) (now : SteadyTime)
    (symkey : SymmetricKeyData)
    (hbig : env.MaxMessageDataSize < GetSize (Framed env symkey msg)) :
    (self.m_RateLimits.CanAdd env (RateLimitTypeOf msg.GetMessageType)
        (GetSize msg.GetMessageData) = true →
      (AddMessage env self msg priority delay now true).1 = ResultCode.Succeeded ∧
      (AddMessage env self msg priority delay now true).2.m_NormalQueue =
        (if priority = .Normal then self.m_NormalQueue ++ [msg] else self.m_NormalQueue) ∧
      (AddMessage env self msg priority delay now true).2.m_ExpeditedQueue =
        (if priority = .Expedited then self.m_ExpeditedQueue ++ [msg]
          else self.m_ExpeditedQueue) ∧
      (AddMessage env self msg priority delay now true).2.m_DelayedQueue =
        (if priority = .Delayed then self.m_DelayedQueue ++ [⟨msg, now, delay⟩]
          else self.m_DelayedQueue)) ∧
    (self.m_RateLimits.CanAdd env (RateLimitTypeOf msg.GetMessageType)
        (GetSize msg.GetMessageData) = false →
      ∀ pushOk, AddMessage env self msg priority delay now pushOk =
        (ResultCode.PeerSendBufferFull, self)) ∧
    env.MaxMessageDataSize < GetSize (Framed env symkey msg) := by
  refine ⟨?_, ?_, hbig⟩
  · intro hcan
    rw [AddMessage_eq_Impl, AddMessageImpl_ok env _ self msg priority delay now hcan]
    refine ⟨rfl, ?_, ?_, ?_⟩
    · cases priority <;> simp
    · cases priority <;> simp
    · cases priority <;> simp
  · intro hcan pushOk
    rw [AddMessage_eq_Impl, AddMessageImpl_full env _ self msg priority delay now pushOk hcan]

/-- Witness of C13 amended: an expedited message of 201 bytes, frame limit 200, on
a scheduler that already holds two messages. -/
theorem AddMessage_ignores_frame_size_witness :
    ScenarioEnv.MaxMessageDataSize <
      GetSize (Framed ScenarioEnv 0 (ZeroMessage .RelayData 201)) ∧
    ExpeditedAndNormalQueues.m_RateLimits.CanAdd ScenarioEnv
      (RateLimitTypeOf (ZeroMessage .RelayData 201).GetMessageType)
      (GetSize (ZeroMessage .RelayData 201).GetMessageData) = true ∧
    (AddMessage ScenarioEnv ExpeditedAndNormalQueues (ZeroMessage .RelayData 201) .Expedited
      0 3 true).1 = ResultCode.Succeeded ∧
    (AddMessage ScenarioEnv ExpeditedAndNormalQueues (ZeroMessage .RelayData 201) .Expedited
      0 3 true).2.m_ExpeditedQueue =
      ExpeditedAndNormalQueues.m_ExpeditedQueue ++ [ZeroMessage .RelayData 201] :=
  ⟨by decide, by decide,
    ((AddMessage_ignores_frame_size ScenarioEnv ExpeditedAndNormalQueues
      (ZeroMessage .RelayData 201) .Expedited 0 3 0 (by decide)).1 (by decide)).1,
    ((AddMessage_ignores_frame_size ScenarioEnv ExpeditedAndNormalQueues
      (ZeroMessage .RelayData 201) .Expedited 0 3 0 (by decide)).1 (by decide)).2.2.1⟩

/-! ## The delayed loop without concatenation (C14) -/

/-- C15 (empty scheduler): when the three queues are empty, `GetMessages` returns
`(true, 0)` and leaves the buffer and the object, queues and counters, as they
were, for every key, either value of `concatenate`, every buffer and every clock
reading. -/
theorem GetMessages_empty (env : Env) (self : PeerSendQueues) (buffer : Buffer)
    (symkey : SymmetricKeyData) (concatenate : Bool) (now : SteadyTime)
    (he : self.m_ExpeditedQueue = []) (hn : self.m_NormalQueue = [])
    (hd : self.m_DelayedQueue = []) :
    GetMessages env self buffer symkey concatenate now = ⟨true, 0, buffer, self⟩ := by
  have hN : NormalPhase env self buffer symkey concatenate =
      ⟨true, false, 0, [], buffer, [], self.m_RateLimits⟩ := by
    unfold NormalPhase
    rw [hn, NormalLoop_nil]
  have hD : DelayedPhase env self buffer symkey concatenate now =
      ⟨true, false, 0, [], buffer, [], self.m_RateLimits⟩ := by
    unfold DelayedPhase
    rw [hN, hd, DelayedLoop_nil]
  rw [GetMessages_delayedPhase env self buffer symkey concatenate now he
    (by rw [hN]) (by rw [hN]), hD, hN]
  cases self
  simp only at hn hd
  simp [hn, hd]

/-- Witness of C15: the scheduler drained by scenario 1, whose `Default` counter
reads 100, with a buffer that holds three bytes. -/
theorem GetMessages_empty_witness :
    (DrainedQueues.m_ExpeditedQueue = [] ∧ DrainedQueues.m_NormalQueue = [] ∧
      DrainedQueues.m_DelayedQueue = []) ∧
    GetMessages ScenarioEnv DrainedQueues [1, 2, 3] 0 true 0 =
      ⟨true, 0, [1, 2, 3], DrainedQueues⟩ :=
  ⟨⟨by decide, by decide, by decide⟩,
    GetMessages_empty ScenarioEnv DrainedQueues [1, 2, 3] 0 true 0 (by decide) (by decide)
      (by decide)⟩

/-! ## An oversized message at the head of the normal queue (C17) -/

/-- C17 (head-of-line stall): when the expedited queue is empty and the front `m` of
the normal queue has, under a key under which it frames, a framed size greater
than `MaxMessageDataSize`, then
(1) every call of `GetMessages` with such a key, either value of `concatenate`,
any buffer and any clock reading returns `(true, 0)` and leaves the buffer, the
queues and the counters unchanged;
(2) hence after any number of such calls the object is still the same: `m` is
still at the head, and no message behind it and no delayed entry has been
removed. -/
theorem GetMessages_oversized_head_stalls (env : Env) (self : PeerSendQueues)
    (m : Message) (rest : List Message)
    (hq : self.m_ExpeditedQueue = []) (hn : self.m_NormalQueue = m :: rest) :
    (∀ (buffer : Buffer) (symkey : SymmetricKeyData) (concatenate : Bool) (now : SteadyTime),
      (env.Write m [] symkey).1 = true →
      env.MaxMessageDataSize < GetSize (Framed env symkey m) →
      GetMessages env self buffer symkey concatenate now = ⟨true, 0, buffer, self⟩) ∧
    (∀ calls : List Call,
      (∀ c ∈ calls, ∃ buffer symkey concatenate now,
        c = Call.pack buffer symkey concatenate now ∧
        (env.Write m [] symkey).1 = true ∧
        env.MaxMessageDataSize < GetSize (Framed env symkey m)) →
      calls.foldl (Step env) self = self) := by
  have h1 : ∀ (buffer : Buffer) (symkey : SymmetricKeyData) (concatenate : Bool)
      (now : SteadyTime), (env.Write m [] symkey).1 = true →
      env.MaxMessageDataSize < GetSize (Framed env symkey m) →
      GetMessages env self buffer symkey concatenate now = ⟨true, 0, buffer, self⟩ := by
    intro buffer symkey concatenate now hw hbig
    have hfit : ¬ GetSize buffer + GetSize (env.Write m [] symkey).2 ≤
        env.MaxMessageDataSize := by
      unfold Framed at hbig
      omega
    have hN : NormalPhase env self buffer symkey concatenate =
        ⟨true, true, 0, (env.Write m [] symkey).2, buffer, m :: rest, self.m_RateLimits⟩ := by
      unfold NormalPhase
      rw [hn, NormalLoop_full env symkey concatenate m rest _ _ _ _ hw hfit]
    rw [GetMessages_normalOnly env self buffer symkey concatenate now hq
      (Or.inr (by rw [hN])), hN]
    cases self
    simp only at hn
    simp [hn]
  refine ⟨h1, ?_⟩
  intro calls
  induction calls with
  | nil => intro _; rfl
  | cons c cs ih =>
    intro hall
    obtain ⟨buffer, symkey, concatenate, now, hc, hw, hbig⟩ :=
      hall c (List.mem_cons_self c cs)
    rw [List.foldl_cons, hc]
    simp only [Step]
    rw [h1 buffer symkey concatenate now hw hbig]
    exact ih (fun x hx => hall x (List.mem_cons_of_mem c hx))

/-- Witness of C17: a message of 201 bytes heads the normal queue (limit 200), a
message of 10 bytes and a ready delayed entry of 10 bytes wait behind it; a call
with concatenation and a call without leave everything as it was. -/
theorem GetMessages_oversized_head_stalls_witness :
    (OversizedNormalQueues.m_ExpeditedQueue = [] ∧
      OversizedNormalQueues.m_NormalQueue =
        ZeroMessage (.Other 0) 201 :: [ZeroMessage .RelayData 10] ∧
      OversizedNormalQueues.m_DelayedQueue = [⟨ZeroMessage .Noise 10, 0, 0⟩] ∧
      (ScenarioEnv.Write (ZeroMessage (.Other 0) 201) [] 0).1 = true ∧
      ScenarioEnv.MaxMessageDataSize <
        GetSize (Framed ScenarioEnv 0 (ZeroMessage (.Other 0) 201))) ∧
    GetMessages ScenarioEnv OversizedNormalQueues [] 0 true 5 =
      ⟨true, 0, [], OversizedNormalQueues⟩ ∧
    [Call.pack [] 0 true 5, Call.pack [1] 0 false 9].foldl (Step ScenarioEnv)
      OversizedNormalQueues = OversizedNormalQueues :=
  ⟨⟨by decide, by decide, by decide, by decide, by decide⟩,
    (GetMessages_oversized_head_stalls ScenarioEnv OversizedNormalQueues
      (ZeroMessage (.Other 0) 201) [ZeroMessage .RelayData 10] (by decide) (by decide)).1
      [] 0 true 5 (by decide) (by decide),
    (GetMessages_oversized_head_stalls ScenarioEnv OversizedNormalQueues
      (ZeroMessage (.Other 0) 201) [ZeroMessage .RelayData 10] (by decide) (by decide)).2
      [Call.pack [] 0 true 5, Call.pack [1] 0 false 9]
      (by
        intro c hc
        simp only [List.mem_cons, List.mem_singleton, List.not_mem_nil, or_false] at hc
        rcases hc with hc | hc
        · exact ⟨[], 0, true, 5, hc, by decide, by decide⟩
        · exact ⟨[1], 0, false, 9, hc, by decide, by decide⟩)⟩

/-! ## Release of the counters (C16, C18) -/

/-- The messages a call of `GetMessages` removes, queue by queue: each queue before
the call is the removed front part followed by the queue after the call, and the
counters are released for the removed messages in the order of removal. -/
theorem GetMessages_prefixes (env : Env) (self : PeerSendQueues) (buffer : Buffer)
    (symkey : SymmetricKeyData) (concatenate : Bool) (now : SteadyTime) :
    ∃ (pe pn : List Message) (pd : List DelayedMessage),
      self.m_ExpeditedQueue =
        pe ++ (GetMessages env self buffer symkey concatenate now).queues.m_ExpeditedQueue ∧
      self.m_NormalQueue =
        pn ++ (GetMessages env self buffer symkey concatenate now).queues.m_NormalQueue ∧
      self.m_DelayedQueue =
        pd ++ (GetMessages env self buffer symkey concatenate now).queues.m_DelayedQueue ∧
      (GetMessages env self buffer symkey concatenate now).queues.m_RateLimits =
        ReleaseAll self.m_RateLimits (pe ++ pn ++ pd.map DelayedMessage.Message) ∧
      (GetMessages env self buffer symkey concatenate now).num =
        pe.length + pn.length + pd.length ∧
      (self.m_ExpeditedQueue ≠ [] → pe.length ≤ 1 ∧ pn = [] ∧ pd = []) ∧
      (self.m_ExpeditedQueue = [] → pe = []) := by
  cases hq : self.m_ExpeditedQueue with
  | cons m rest =>
    rw [GetMessages_of_expedited env self buffer symkey concatenate now m rest hq]
    cases hw : (env.Write m buffer symkey).1
    · refine ⟨[], [], [], ?_⟩
      rw [GetExpeditedMessages_writeError env self buffer symkey m rest hq hw]
      simp [hq, ReleaseAll]
    · refine ⟨[m], [], [], ?_⟩
      rw [GetExpeditedMessages_written env self buffer symkey m rest hq hw]
      simp [ReleaseAll]
  | nil =>
    obtain ⟨pn, pd, h1, h2, h3, h4, h5, _⟩ :=
      GetMessages_noExpedited_spec env self buffer symkey concatenate now hq
    refine ⟨[], pn, pd, ?_, h1, h2, ?_, ?_, ?_, ?_⟩
    · rw [h3]; rfl
    · rw [h5]; rfl
    · rw [h4]; simp
    · intro h; exact absurd rfl h
    · intro _; rfl

theorem BytesOfClass_eq_BytesOfType (ty : MessageType) (t : RateLimitType)
    (h : (ty, t) ∈ [(MessageType.ExtenderCommunication, RateLimitType.ExtenderCommunication),
      (MessageType.Noise, RateLimitType.Noise), (MessageType.RelayData, RateLimitType.RelayData)])
    (msgs : List Message) : BytesOfClass t msgs = BytesOfType ty msgs := by
  have hiff : ∀ m : Message, (RateLimitTypeOf m.GetMessageType = t) ↔ (m.GetMessageType = ty) := by
    intro m
    simp only [List.mem_cons, Prod.mk.injEq, List.mem_singleton, List.not_mem_nil,
      or_false] at h
    rcases h with ⟨h1, h2⟩ | ⟨h1, h2⟩ | ⟨h1, h2⟩ <;> subst h1 <;> subst h2 <;>
      cases m.GetMessageType <;> simp [RateLimitTypeOf]
  unfold BytesOfClass BytesOfType
  congr 2
  apply List.filter_congr
  intro m _
  simp [hiff m]

/-- If the counter of every class other than `Default` covers the bytes of the
class in `msgs`, every `Subtract` issued for `msgs` meets its precondition. -/
theorem SubtractsOk_of_le (msgs : List Message) : ∀ rl : MessageRateLimits,
    (∀ t, t ≠ RateLimitType.Default → BytesOfClass t msgs ≤ rl.current t) →
    SubtractsOk rl msgs = true := by
  induction msgs with
  | nil => intro rl _; rfl
  | cons m ms ih =>
    intro rl h
    have htail : SubtractsOk (RemoveMessage id [m] rl).2 ms = true := by
      apply ih
      intro t ht
      have := h t ht
      rw [BytesOfClass_cons] at this
      rw [RemoveMessage_current, if_neg ht]
      omega
    have h1 := h .ExtenderCommunication (by decide)
    have h2 := h .Noise (by decide)
    have h3 := h .RelayData (by decide)
    rw [BytesOfClass_cons] at h1 h2 h3
    simp only [SubtractsOk, htail, Bool.and_true]
    cases hm : m.GetMessageType with
    | ExtenderCommunication =>
      simp only [hm, RateLimitTypeOf, if_true] at h1
      simp only [decide_eq_true_eq]
      omega
    | Noise =>
      simp only [hm, RateLimitTypeOf, if_true] at h2
      simp only [decide_eq_true_eq]
      omega
    | RelayData =>
      simp only [hm, RateLimitTypeOf, if_true] at h3
      simp only [decide_eq_true_eq]
      omega
    | Other code => rfl

/-- C16 (rate-limiter bounds and no underflow): in every state reached from the
empty scheduler by `AddMessage` and `GetMessages` calls, every class counter lies
between 0 and the limit of its class; and for every further call of
`GetMessages` in such a state, the counters after the call are those released
for the removed messages, the front parts `pe`, `pn`, `pd` of the three queues,
in the order of removal, and every `Subtract` issued on the way meets its
precondition `current_bytes[class] ≥ size`, so no counter is taken below zero. -/
theorem Run_counters_within_limits (env : Env) (calls : List Call) :
    (∀ t, 0 ≤ (Run env calls).m_RateLimits.current t ∧
      (Run env calls).m_RateLimits.current t ≤ env.MaxBytes t) ∧
    (∀ (buffer : Buffer) (symkey : SymmetricKeyData) (concatenate : Bool) (now : SteadyTime),
      ∃ (pe pn : List Message) (pd : List DelayedMessage),
        (Run env calls).m_ExpeditedQueue =
          pe ++ (GetMessages env (Run env calls) buffer symkey concatenate
            now).queues.m_ExpeditedQueue ∧
        (Run env calls).m_NormalQueue =
          pn ++ (GetMessages env (Run env calls) buffer symkey concatenate
            now).queues.m_NormalQueue ∧
        (Run env calls).m_DelayedQueue =
          pd ++ (GetMessages env (Run env calls) buffer symkey concatenate
            now).queues.m_DelayedQueue ∧
        (GetMessages env (Run env calls) buffer symkey concatenate now).queues.m_RateLimits =
          ReleaseAll (Run env calls).m_RateLimits (pe ++ pn ++ pd.map DelayedMessage.Message) ∧
        SubtractsOk (Run env calls).m_RateLimits
          (pe ++ pn ++ pd.map DelayedMessage.Message) = true) := by
  obtain ⟨hacc, _, hmax⟩ := Run_accounting env calls
  refine ⟨fun t => ⟨Nat.zero_le _, hmax t⟩, ?_⟩
  intro buffer symkey concatenate now
  obtain ⟨pe, pn, pd, h1, h2, h3, h4, _⟩ :=
    GetMessages_prefixes env (Run env calls) buffer symkey concatenate now
  refine ⟨pe, pn, pd, h1, h2, h3, h4, ?_⟩
  apply SubtractsOk_of_le
  intro t ht
  rw [hacc t ht]
  have e1 : BytesOfClass t (Run env calls).m_ExpeditedQueue =
      BytesOfClass t pe + BytesOfClass t (GetMessages env (Run env calls) buffer symkey
        concatenate now).queues.m_ExpeditedQueue := by
    rw [← BytesOfClass_append, ← h1]
  have e2 : BytesOfClass t (Run env calls).m_NormalQueue =
      BytesOfClass t pn + BytesOfClass t (GetMessages env (Run env calls) buffer symkey
        concatenate now).queues.m_NormalQueue := by
    rw [← BytesOfClass_append, ← h2]
  have e3 : BytesOfClass t ((Run env calls).m_DelayedQueue.map DelayedMessage.Message) =
      BytesOfClass t (pd.map DelayedMessage.Message) +
        BytesOfClass t ((GetMessages env (Run env calls) buffer symkey concatenate
          now).queues.m_DelayedQueue.map DelayedMessage.Message) := by
    rw [← BytesOfClass_append, ← List.map_append, ← h3]
  simp only [QueuedBytes]
  rw [e1, e2, e3, BytesOfClass_append, BytesOfClass_append]
  omega

/-- C18 (effect of release on the counters): for every state and every call of
`GetMessages`, with `pe`, `pn`, `pd` the messages the call removes from the front
of the three queues: each of the `ExtenderCommunication`, `Noise` and `RelayData`
counters after the call is the counter before the call minus the total size of
the removed messages of that type (an exact decrease whenever the counter
covers that total, which is the precondition of `Subtract`), and the `Default`
counter is unchanged whatever is removed; `RemoveMessage` returns the queue it
is given without its front element, and the expedited path removes nothing from
the normal and the delayed queue, the other path nothing from the expedited
queue. -/
theorem GetMessages_release_effect (env : Env) (self : PeerSendQueues) (buffer : Buffer)
    (symkey : SymmetricKeyData) (concatenate : Bool) (now : SteadyTime) :
    (∃ (pe pn : List Message) (pd : List DelayedMessage),
      self.m_ExpeditedQueue =
        pe ++ (GetMessages env self buffer symkey concatenate now).queues.m_ExpeditedQueue ∧
      self.m_NormalQueue =
        pn ++ (GetMessages env self buffer symkey concatenate now).queues.m_NormalQueue ∧
      self.m_DelayedQueue =
        pd ++ (GetMessages env self buffer symkey concatenate now).queues.m_DelayedQueue ∧
      (∀ ty t,
        (ty, t) ∈ [(MessageType.ExtenderCommunication, RateLimitType.ExtenderCommunication),
          (MessageType.Noise, RateLimitType.Noise),
          (MessageType.RelayData, RateLimitType.RelayData)] →
        (GetMessages env self buffer symkey concatenate now).queues.m_RateLimits.current t =
          self.m_RateLimits.current t -
            BytesOfType ty (pe ++ pn ++ pd.map DelayedMessage.Message) ∧
        (BytesOfType ty (pe ++ pn ++ pd.map DelayedMessage.Message) ≤
            self.m_RateLimits.current t →
          (GetMessages env self buffer symkey concatenate now).queues.m_RateLimits.current t +
              BytesOfType ty (pe ++ pn ++ pd.map DelayedMessage.Message) =
            self.m_RateLimits.current t)) ∧
      (GetMessages env self buffer symkey concatenate now).queues.m_RateLimits.current
          .Default = self.m_RateLimits.current .Default ∧
      (self.m_ExpeditedQueue ≠ [] → pn = [] ∧ pd = []) ∧
      (self.m_ExpeditedQueue = [] → pe = [])) ∧
    (∀ (T : Type) (view : T → Message) (x : T) (rest : List T) (rl : MessageRateLimits),
      (RemoveMessage view (x :: rest) rl).1 = rest) := by
  refine ⟨?_, fun _ _ _ _ _ => rfl⟩
  obtain ⟨pe, pn, pd, h1, h2, h3, h4, _, h6, h7⟩ :=
    GetMessages_prefixes env self buffer symkey concatenate now
  refine ⟨pe, pn, pd, h1, h2, h3, ?_, ?_, fun h => (h6 h).2, h7⟩
  · intro ty t hmem
    have ht : t ≠ RateLimitType.Default := by
      simp only [List.mem_cons, Prod.mk.injEq, List.mem_singleton, List.not_mem_nil,
        or_false] at hmem
      rcases hmem with ⟨_, h⟩ | ⟨_, h⟩ | ⟨_, h⟩ <;> rw [h] <;> decide
    have heq : (GetMessages env self buffer symkey concatenate now).queues.m_RateLimits.current
        t = self.m_RateLimits.current t -
          BytesOfType ty (pe ++ pn ++ pd.map DelayedMessage.Message) := by
      rw [h4, ReleaseAll_current, if_neg ht, BytesOfClass_eq_BytesOfType ty t hmem]
    refine ⟨heq, ?_⟩
    intro hle
    rw [heq]
    omega
  · rw [h4, ReleaseAll_current, if_pos rfl]

/-- Witness of C18: a normal `Default`-class message of 2 bytes, a normal noise
message of 3 bytes and a delayed relay message of 1 byte are all packed in one
call; the noise and relay counters go from 3 and 1 to 0, the `Default` counter
stays at 2. -/
theorem GetMessages_release_effect_witness :
    (FifoQueues.m_RateLimits.current .Noise = 3 ∧
      FifoQueues.m_RateLimits.current .RelayData = 1 ∧
      FifoQueues.m_RateLimits.current .Default = 2) ∧
    ((GetMessages ScenarioEnv FifoQueues [9] 0 true 10).queues.m_NormalQueue = [] ∧
      (GetMessages ScenarioEnv FifoQueues [9] 0 true 10).queues.m_DelayedQueue = [] ∧
      (GetMessages ScenarioEnv FifoQueues [9] 0 true 10).queues.m_RateLimits.current
        .Noise = 0 ∧
      (GetMessages ScenarioEnv FifoQueues [9] 0 true 10).queues.m_RateLimits.current
        .RelayData = 0) ∧
    (GetMessages ScenarioEnv FifoQueues [9] 0 true 10).queues.m_RateLimits.current
      .Default = 2 := by
  obtain ⟨_, _, _, _, _, _, _, h, _⟩ :=
    (GetMessages_release_effect ScenarioEnv FifoQueues [9] 0 true 10).1
  exact ⟨by decide, by decide, h.trans (by decide)⟩

/-! ## Bounded work (C19) -/

/-- The traced normal loop is the normal loop, and its count of `Write` calls
grows by at most one per message of the queue and by at most one more than the
number of messages it removes; it grows by exactly that number when the loop
ends with `success` set and `stop` clear. -/
theorem NormalLoopTraced_spec (env : Env) (symkey : SymmetricKeyData) (concatenate : Bool)
    (q : List Message) : ∀ (rl : MessageRateLimits) (t b : Buffer) (n w : Nat),
    (NormalLoopTraced env symkey concatenate q rl t b n w).1 =
      NormalLoop env symkey concatenate q rl t b n ∧
    (NormalLoopTraced env symkey concatenate q rl t b n w).2 ≤ w + q.length ∧
    (NormalLoopTraced env symkey concatenate q rl t b n w).2 + n ≤
      w + (NormalLoop env symkey concatenate q rl t b n).num + 1 ∧
    ((NormalLoop env symkey concatenate q rl t b n).success = true →
      (NormalLoop env symkey concatenate q rl t b n).stop = false →
      (NormalLoopTraced env symkey concatenate q rl t b n w).2 + n =
        w + (NormalLoop env symkey concatenate q rl t b n).num) := by
  induction q with
  | nil =>
    intro rl t b n w
    simp [NormalLoopTraced, NormalLoop]
  | cons m rest ih =>
    intro rl t b n w
    cases hw : (env.Write m t symkey).1
    · rw [NormalLoop_writeError env symkey concatenate m rest rl t b n hw]
      simp [NormalLoopTraced, hw]
      omega
    · by_cases hfit : GetSize b + GetSize (env.Write m t symkey).2 ≤ env.MaxMessageDataSize
      · cases concatenate
        · rw [NormalLoop_single env symkey m rest rl t b n hw hfit]
          simp [NormalLoopTraced, hw, hfit, RemoveMessage]
          omega
        · rw [NormalLoop_next env symkey m rest rl t b n hw hfit]
          obtain ⟨h1, h2, h3, h4⟩ := ih (RemoveMessage id [m] rl).2 (env.Write m t symkey).2
            (b ++ (env.Write m t symkey).2) (n + 1) (w + 1)
          have he : NormalLoopTraced env symkey true (m :: rest) rl t b n w =
              NormalLoopTraced env symkey true rest (RemoveMessage id [m] rl).2
                (env.Write m t symkey).2 (b ++ (env.Write m t symkey).2) (n + 1) (w + 1) := by
            simp [NormalLoopTraced, hw, hfit, RemoveMessage]
          rw [he]
          refine ⟨h1, ?_, ?_, ?_⟩
          · simp only [List.length_cons]; omega
          · omega
          · intro hs hp
            have := h4 hs hp
            omega
      · rw [NormalLoop_full env symkey concatenate m rest rl t b n hw hfit]
        simp [NormalLoopTraced, hw, hfit]
        omega

/-- The traced delayed loop is the delayed loop, and its count of `Write` calls
grows by at most one per entry of the queue and by at most one more than the
number of entries it removes. -/
theorem DelayedLoopTraced_spec (env : Env) (symkey : SymmetricKeyData) (concatenate : Bool)
    (now : SteadyTime) (q : List DelayedMessage) :
    ∀ (rl : MessageRateLimits) (t b : Buffer) (n w : Nat),
    (DelayedLoopTraced env symkey concatenate now q rl t b n w).1 =
      DelayedLoop env symkey concatenate now q rl t b n ∧
    (DelayedLoopTraced env symkey concatenate now q rl t b n w).2 ≤ w + q.length ∧
    (DelayedLoopTraced env symkey concatenate now q rl t b n w).2 + n ≤
      w + (DelayedLoop env symkey concatenate now q rl t b n).num + 1 := by
  induction q with
  | nil =>
    intro rl t b n w
    simp [DelayedLoopTraced, DelayedLoop]
  | cons d rest ih =>
    intro rl t b n w
    cases ht : d.IsTime now
    · rw [DelayedLoop_notTime env symkey concatenate now d rest rl t b n ht]
      simp [DelayedLoopTraced, ht]
    · cases hw : (env.Write d.Message t symkey).1
      · rw [DelayedLoop_writeError env symkey concatenate now d rest rl t b n ht hw]
        simp [DelayedLoopTraced, ht, hw]
        omega
      · by_cases hfit :
          GetSize b + GetSize (env.Write d.Message t symkey).2 ≤ env.MaxMessageDataSize
        · cases concatenate
          · rw [DelayedLoop_single env symkey now d rest rl t b n ht hw hfit]
            simp [DelayedLoopTraced, ht, hw, hfit, RemoveMessage]
            omega
          · rw [DelayedLoop_next env symkey now d rest rl t b n ht hw hfit]
            obtain ⟨h1, h2, h3⟩ := ih (RemoveMessage id [d.Message] rl).2
              (env.Write d.Message t symkey).2 (b ++ (env.Write d.Message t symkey).2) (n + 1)
              (w + 1)
            have he : DelayedLoopTraced env symkey true now (d :: rest) rl t b n w =
                DelayedLoopTraced env symkey true now rest (RemoveMessage id [d.Message] rl).2
                  (env.Write d.Message t symkey).2 (b ++ (env.Write d.Message t symkey).2)
                  (n + 1) (w + 1) := by
              simp [DelayedLoopTraced, ht, hw, hfit, RemoveMessage]
            rw [he]
            refine ⟨h1, ?_, ?_⟩
            · simp only [List.length_cons]; omega
            · omega
        · rw [DelayedLoop_full env symkey concatenate now d rest rl t b n ht hw hfit]
          simp [DelayedLoopTraced, ht, hw, hfit]
          omega

/-- The traced `GetMessages` is `GetMessages`, and the number of `Write` calls of one
call is at most the number of normal and delayed messages plus one, and at most
one more than the returned count. -/
theorem GetMessagesTraced_spec (env : Env) (self : PeerSendQueues) (buffer : Buffer)
    (symkey : SymmetricKeyData) (concatenate : Bool) (now : SteadyTime) :
    (GetMessagesTraced env self buffer symkey concatenate now).1 =
      GetMessages env self buffer symkey concatenate now ∧
    (GetMessagesTraced env self buffer symkey concatenate now).2 ≤
      self.m_NormalQueue.length + self.m_DelayedQueue.length + 1 ∧
    (GetMessagesTraced env self buffer symkey concatenate now).2 ≤
      (GetMessages env self buffer symkey concatenate now).num + 1 := by
  cases hq : self.m_ExpeditedQueue with
  | cons m rest =>
    cases hw : (env.Write m buffer symkey).1 <;>
      simp [GetMessagesTraced, GetMessages, GetExpeditedMessagesTraced, GetExpeditedMessages,
        hq, hw]
  | nil =>
    obtain ⟨n1, n2, n3, n4⟩ := NormalLoopTraced_spec env symkey concatenate
      self.m_NormalQueue self.m_RateLimits [] buffer 0 0
    have hN : NormalLoop env symkey concatenate self.m_NormalQueue self.m_RateLimits [] buffer
        0 = NormalPhase env self buffer symkey concatenate := rfl
    rw [hN] at n1 n3 n4
    by_cases hgo : (NormalPhase env self buffer symkey concatenate).success = true ∧
        (NormalPhase env self buffer symkey concatenate).stop = false
    · obtain ⟨hs, hp⟩ := hgo
      obtain ⟨d1, d2, d3⟩ := DelayedLoopTraced_spec env symkey concatenate now
        self.m_DelayedQueue (NormalPhase env self buffer symkey concatenate).limits
        (NormalPhase env self buffer symkey concatenate).tempbuf
        (NormalPhase env self buffer symkey concatenate).buffer
        (NormalPhase env self buffer symkey concatenate).num
        (NormalLoopTraced env symkey concatenate self.m_NormalQueue self.m_RateLimits []
          buffer 0 0).2
      have hD : DelayedLoop env symkey concatenate now self.m_DelayedQueue
          (NormalPhase env self buffer symkey concatenate).limits
          (NormalPhase env self buffer symkey concatenate).tempbuf
          (NormalPhase env self buffer symkey concatenate).buffer
          (NormalPhase env self buffer symkey concatenate).num =
          DelayedPhase env self buffer symkey concatenate now := rfl
      rw [hD] at d1 d3
      have hT : GetMessagesTraced env self buffer symkey concatenate now =
          (⟨(DelayedPhase env self buffer symkey concatenate now).success,
            (DelayedPhase env self buffer symkey concatenate now).num,
            (DelayedPhase env self buffer symkey concatenate now).buffer,
            { self with
              m_NormalQueue := (NormalPhase env self buffer symkey concatenate).queue
              m_DelayedQueue := (DelayedPhase env self buffer symkey concatenate now).queue
              m_RateLimits := (DelayedPhase env self buffer symkey concatenate now).limits }⟩,
            (DelayedLoopTraced env symkey concatenate now self.m_DelayedQueue
              (NormalPhase env self buffer symkey concatenate).limits
              (NormalPhase env self buffer symkey concatenate).tempbuf
              (NormalPhase env self buffer symkey concatenate).buffer
              (NormalPhase env self buffer symkey concatenate).num
              (NormalLoopTraced env symkey concatenate self.m_NormalQueue self.m_RateLimits []
                buffer 0 0).2).2) := by
        unfold GetMessagesTraced
        simp only [hq, List.isEmpty_nil, Bool.not_true, Bool.false_eq_true, if_false, n1, hs,
          hp, Bool.not_false, Bool.and_self, if_true, d1]
      rw [hT, GetMessages_delayedPhase env self buffer symkey concatenate now hq hs hp]
      have h4 := n4 hs hp
      refine ⟨rfl, ?_, ?_⟩
      · show _ ≤ _
        simp only
        omega
      · show _ ≤ _
        simp only
        omega
    · have hs : (NormalPhase env self buffer symkey concatenate).success = false ∨
          (NormalPhase env self buffer symkey concatenate).stop = true := by
        cases h1 : (NormalPhase env self buffer symkey concatenate).success
        · exact Or.inl rfl
        · cases h2 : (NormalPhase env self buffer symkey concatenate).stop
          · exact absurd ⟨h1, h2⟩ hgo
          · exact Or.inr rfl
      have hT : GetMessagesTraced env self buffer symkey concatenate now =
          (⟨(NormalPhase env self buffer symkey concatenate).success,
            (NormalPhase env self buffer symkey concatenate).num,
            (NormalPhase env self buffer symkey concatenate).buffer,
            { self with
              m_NormalQueue := (NormalPhase env self buffer symkey concatenate).queue
              m_RateLimits := (NormalPhase env self buffer symkey concatenate).limits }⟩,
            (NormalLoopTraced env symkey concatenate self.m_NormalQueue self.m_RateLimits []
              buffer 0 0).2) := by
        unfold GetMessagesTraced
        rcases hs with hs | hs <;>
          simp [hq, n1, hs]
      rw [hT, GetMessages_normalOnly env self buffer symkey concatenate now hq hs]
      refine ⟨rfl, ?_, ?_⟩
      · show _ ≤ _
        simp only
        omega
      · show _ ≤ _
        simp only
        omega

/-- C19 (bounded work): `GetMessages` is a total function, each loop recurring on the
queue without its front element, and for every state, buffer, key, flag and
clock reading, with `GetMessagesTraced` the same function counting its calls of
`Write`:
(1) the number of framing attempts is at most the number of normal and delayed
messages plus one, and at most one more than the returned count;
(2) the returned count is at most the number of normal and delayed messages
when the expedited queue is empty, and at most 1 when it is not;
(3) an iteration of the normal loop on a queue `m :: rest` either removes `m` and
goes on with `rest`, or exits with the queue as it is, or exits with `m` removed;
(4) the same holds for an iteration of the delayed loop. -/
theorem GetMessages_bounded_work (env : Env) (self : PeerSendQueues) (buffer : Buffer)
    (symkey : SymmetricKeyData) (concatenate : Bool) (now : SteadyTime) :
    (GetMessagesTraced env self buffer symkey concatenate now).1 =
      GetMessages env self buffer symkey concatenate now ∧
    (GetMessagesTraced env self buffer symkey concatenate now).2 ≤
      self.m_NormalQueue.length + self.m_DelayedQueue.length + 1 ∧
    (GetMessagesTraced env self buffer symkey concatenate now).2 ≤
      (GetMessages env self buffer symkey concatenate now).num + 1 ∧
    (self.m_ExpeditedQueue = [] →
      (GetMessages env self buffer symkey concatenate now).num ≤
        self.m_NormalQueue.length + self.m_DelayedQueue.length) ∧
    (self.m_ExpeditedQueue ≠ [] →
      (GetMessages env self buffer symkey concatenate now).num ≤ 1) ∧
    (∀ (m : Message) (rest : List Message) (rl : MessageRateLimits) (t b : Buffer) (n : Nat),
      NormalLoop env symkey concatenate (m :: rest) rl t b n =
          NormalLoop env symkey concatenate rest (RemoveMessage id [m] rl).2
            (env.Write m t symkey).2 (b ++ (env.Write m t symkey).2) (n + 1) ∨
        ((NormalLoop env symkey concatenate (m :: rest) rl t b n).queue = m :: rest ∧
          (NormalLoop env symkey concatenate (m :: rest) rl t b n).num = n) ∨
        ((NormalLoop env symkey concatenate (m :: rest) rl t b n).queue = rest ∧
          (NormalLoop env symkey concatenate (m :: rest) rl t b n).num = n + 1)) ∧
    (∀ (d : DelayedMessage) (rest : List DelayedMessage) (rl : MessageRateLimits)
      (t b : Buffer) (n : Nat),
      DelayedLoop env symkey concatenate now (d :: rest) rl t b n =
          DelayedLoop env symkey concatenate now rest (RemoveMessage id [d.Message] rl).2
            (env.Write d.Message t symkey).2 (b ++ (env.Write d.Message t symkey).2) (n + 1) ∨
        ((DelayedLoop env symkey concatenate now (d :: rest) rl t b n).queue = d :: rest ∧
          (DelayedLoop env symkey concatenate now (d :: rest) rl t b n).num = n) ∨
        ((DelayedLoop env symkey concatenate now (d :: rest) rl t b n).queue = rest ∧
          (DelayedLoop env symkey concatenate now (d :: rest) rl t b n).num = n + 1)) := by
  obtain ⟨t1, t2, t3⟩ := GetMessagesTraced_spec env self buffer symkey concatenate now
  obtain ⟨pe, pn, pd, h1, h2, h3, _, h5, h6, h7⟩ :=
    GetMessages_prefixes env self buffer symkey concatenate now
  refine ⟨t1, t2, t3, ?_, ?_, ?_, ?_⟩
  · intro hq
    have hpe := h7 hq
    have l2 := congrArg List.length h2
    have l3 := congrArg List.length h3
    simp only [List.length_append] at l2 l3
    rw [h5, hpe]
    simp only [List.length_nil]
    omega
  · intro hq
    obtain ⟨a, b, c⟩ := h6 hq
    rw [h5, b, c]
    simp only [List.length_nil]
    omega
  · intro m rest rl t b n
    cases hw : (env.Write m t symkey).1
    · right; left
      rw [NormalLoop_writeError env symkey concatenate m rest rl t b n hw]
      exact ⟨rfl, rfl⟩
    · by_cases hfit : GetSize b + GetSize (env.Write m t symkey).2 ≤ env.MaxMessageDataSize
      · cases concatenate
        · right; right
          rw [NormalLoop_single env symkey m rest rl t b n hw hfit]
          exact ⟨rfl, rfl⟩
        · left
          exact NormalLoop_next env symkey m rest rl t b n hw hfit
      · right; left
        rw [NormalLoop_full env symkey concatenate m rest rl t b n hw hfit]
        exact ⟨rfl, rfl⟩
  · intro d rest rl t b n
    cases ht : d.IsTime now
    · right; left
      rw [DelayedLoop_notTime env symkey concatenate now d rest rl t b n ht]
      exact ⟨rfl, rfl⟩
    · cases hw : (env.Write d.Message t symkey).1
      · right; left
        rw [DelayedLoop_writeError env symkey concatenate now d rest rl t b n ht hw]
        exact ⟨rfl, rfl⟩
      · by_cases hfit :
          GetSize b + GetSize (env.Write d.Message t symkey).2 ≤ env.MaxMessageDataSize
        · cases concatenate
          · right; right
            rw [DelayedLoop_single env symkey now d rest rl t b n ht hw hfit]
            exact ⟨rfl, rfl⟩
          · left
            exact DelayedLoop_next env symkey now d rest rl t b n ht hw hfit
        · right; left
          rw [DelayedLoop_full env symkey concatenate now d rest rl t b n ht hw hfit]
          exact ⟨rfl, rfl⟩

/-- Witness of C19: with two normal messages and one ready delayed entry that all
fit, the call makes three framing attempts and returns a count of 3; with a
message of 150 bytes followed by one of 100 bytes (limit 200) it makes two
attempts and returns a count of 1. -/
theorem GetMessages_bounded_work_witness :
    (GetMessagesTraced ScenarioEnv FifoQueues [9] 0 true 10).2 = 3 ∧
    (GetMessages ScenarioEnv FifoQueues [9] 0 true 10).num = 3 ∧
    (GetMessagesTraced ScenarioEnv TwoNormalQueues [] 0 true 0).2 = 2 ∧
    (GetMessages ScenarioEnv TwoNormalQueues [] 0 true 0).num = 1 ∧
    (GetMessagesTraced ScenarioEnv TwoNormalQueues [] 0 true 0).2 ≤
      TwoNormalQueues.m_NormalQueue.length + TwoNormalQueues.m_DelayedQueue.length + 1 :=
  ⟨by decide, by decide, by decide, by decide,
    (GetMessages_bounded_work ScenarioEnv TwoNormalQueues [] 0 true 0).2.1⟩

/-! ## Greedy batching (C12) -/

/-- With concatenation and a `Write` that always succeeds, the normal loop packs a
front part `pre` of its queue, every message of which fits at its turn, and the
message it stops at, if any, does not fit behind them. -/
theorem NormalLoop_greedy (env : Env) (symkey : SymmetricKeyData)
    (hall : ∀ m t, (env.Write m t symkey).1 = true) (q : List Message) :
    ∀ (rl : MessageRateLimits) (t b : Buffer) (n : Nat),
    ∃ pre : List Message,
      q = pre ++ (NormalLoop env symkey true q rl t b n).queue ∧
      PacksAll env symkey b t pre = true ∧
      (NormalLoop env symkey true q rl t b n).success = true ∧
      (NormalLoop env symkey true q rl t b n).num = n + pre.length ∧
      (NormalLoop env symkey true q rl t b n).buffer = b ++ Appended env symkey t pre ∧
      (NormalLoop env symkey true q rl t b n).limits = ReleaseAll rl pre ∧
      (∀ m rest, (NormalLoop env symkey true q rl t b n).queue = m :: rest →
        (NormalLoop env symkey true q rl t b n).stop = true ∧
        ¬ GetSize (b ++ Appended env symkey t pre) +
            GetSize (env.Write m (ScratchAfter env symkey t pre) symkey).2 ≤
          env.MaxMessageDataSize) := by
  induction q with
  | nil =>
    intro rl t b n
    refine ⟨[], ?_⟩
    simp [NormalLoop_nil, PacksAll, Appended, ReleaseAll]
  | cons m rest ih =>
    intro rl t b n
    have hw := hall m t
    by_cases hfit : GetSize b + GetSize (env.Write m t symkey).2 ≤ env.MaxMessageDataSize
    · obtain ⟨pre, h1, h2, h3, h4, h5, h6, h7⟩ :=
        ih (RemoveMessage id [m] rl).2 (env.Write m t symkey).2
          (b ++ (env.Write m t symkey).2) (n + 1)
      refine ⟨m :: pre, ?_⟩
      rw [NormalLoop_next env symkey m rest rl t b n hw hfit]
      refine ⟨?_, ?_, h3, ?_, ?_, ?_, ?_⟩
      · simpa using h1
      · simp [PacksAll, hw, hfit, h2]
      · rw [h4]; simp; omega
      · rw [h5]; simp [Appended]
      · rw [h6]; rfl
      · intro x xs hx
        have := h7 x xs hx
        simpa [Appended, ScratchAfter, List.append_assoc] using this
    · refine ⟨[], ?_⟩
      rw [NormalLoop_full env symkey true m rest rl t b n hw hfit]
      refine ⟨rfl, rfl, rfl, rfl, by simp [Appended], rfl, ?_⟩
      intro x xs hx
      have hx1 : m = x := (List.cons.inj hx).1
      subst hx1
      refine ⟨rfl, ?_⟩
      simpa [Appended, ScratchAfter] using hfit

theorem PacksAll_buffer_le (env : Env) (symkey : SymmetricKeyData) (msgs : List Message) :
    ∀ (b t : Buffer), PacksAll env symkey b t msgs = true →
    GetSize b ≤ env.MaxMessageDataSize →
    GetSize (b ++ Appended env symkey t msgs) ≤ env.MaxMessageDataSize := by
  induction msgs with
  | nil => intro b t _ hb; simpa [Appended] using hb
  | cons m ms ih =>
    intro b t h hb
    simp only [PacksAll, Bool.and_eq_true, decide_eq_true_eq] at h
    obtain ⟨⟨_, hfit⟩, hrest⟩ := h
    have := ih (b ++ (env.Write m t symkey).2) (env.Write m t symkey).2 hrest
      (by simpa [GetSize] using hfit)
    simpa [Appended, List.append_assoc] using this

/-- Greedy batching of the normal queue.  With an empty expedited queue,
concatenation allowed, a `Write` that always succeeds and leaves the framed
bytes of its message in the scratch buffer, `GetMessages` returns `success` and
removes a front part `pn` of the normal queue whose framed bytes fit behind the
entry buffer (when the entry buffer is within the limit), and the message left
at the head of the normal queue, if any, does not fit behind them: `pn` is the
longest front part that fits.  In that case the count is the number of messages
of `pn`, the buffer is the entry buffer followed by their framed bytes, and the
counters are those released for `pn`. -/
theorem GetMessages_greedy (env : Env) (self : PeerSendQueues) (buffer : Buffer)
    (symkey : SymmetricKeyData) (now : SteadyTime)
    (hq : self.m_ExpeditedQueue = [])
    (hall : ∀ m t, (env.Write m t symkey).1 = true)
    (hrep : ∀ m t, (env.Write m t symkey).2 = Framed env symkey m) :
    ∃ pn : List Message,
      self.m_NormalQueue =
        pn ++ (GetMessages env self buffer symkey true now).queues.m_NormalQueue ∧
      (GetSize buffer ≤ env.MaxMessageDataSize →
        GetSize buffer + GetSize (FramedBytes env symkey pn) ≤ env.MaxMessageDataSize) ∧
      (GetMessages env self buffer symkey true now).success = true ∧
      (∀ m rest, (GetMessages env self buffer symkey true now).queues.m_NormalQueue = m :: rest →
        ¬ GetSize buffer + GetSize (FramedBytes env symkey pn) + GetSize (Framed env symkey m) ≤
          env.MaxMessageDataSize ∧
        (GetMessages env self buffer symkey true now).num = pn.length ∧
        (GetMessages env self buffer symkey true now).buffer =
          buffer ++ FramedBytes env symkey pn ∧
        (GetMessages env self buffer symkey true now).queues.m_RateLimits =
          ReleaseAll self.m_RateLimits pn) := by
  obtain ⟨pn, h1, h2, h3, h4, h5, h6, h7⟩ :=
    NormalLoop_greedy env symkey hall self.m_NormalQueue self.m_RateLimits [] buffer 0
  have hN : NormalLoop env symkey true self.m_NormalQueue self.m_RateLimits [] buffer 0 =
      NormalPhase env self buffer symkey true := rfl
  rw [hN] at h1 h3 h4 h5 h6 h7
  have hwok : WritesOk env symkey [] pn = true := by
    have : ∀ (l : List Message) (t : Buffer), WritesOk env symkey t l = true := by
      intro l
      induction l with
      | nil => intro t; rfl
      | cons x xs ih => intro t; simp [WritesOk, hall x t, ih]
    exact this pn []
  have hApp : Appended env symkey [] pn = FramedBytes env symkey pn :=
    Appended_eq_FramedBytes env symkey (fun m t _ => hrep m t) pn [] hwok
  have hqueue : (GetMessages env self buffer symkey true now).queues.m_NormalQueue =
      (NormalPhase env self buffer symkey true).queue := by
    by_cases hp : (NormalPhase env self buffer symkey true).stop = false
    · rw [GetMessages_delayedPhase env self buffer symkey true now hq h3 hp]
    · have hp2 : (NormalPhase env self buffer symkey true).stop = true := by
        cases h : (NormalPhase env self buffer symkey true).stop
        · exact absurd h hp
        · rfl
      rw [GetMessages_normalOnly env self buffer symkey true now hq (Or.inr hp2)]
  have hsucc : (GetMessages env self buffer symkey true now).success = true := by
    cases hs : (GetMessages env self buffer symkey true now).success
    · obtain ⟨_, _, _, _, _, _, _, _, _, _, _, _, h11, _⟩ :=
        GetMessages_noExpedited_spec env self buffer symkey true now hq
      rcases h11 hs with ⟨_, m, _, _, hw⟩ | ⟨_, d, _, _, _, hw⟩
      · rw [hall] at hw; cases hw
      · rw [hall] at hw; cases hw
    · rfl
  refine ⟨pn, ?_, ?_, hsucc, ?_⟩
  · rw [hqueue]; exact h1
  · intro hb
    have := PacksAll_buffer_le env symkey pn buffer [] h2 hb
    rw [hApp] at this
    simpa [GetSize] using this
  · intro m rest hm
    rw [hqueue] at hm
    obtain ⟨hstop, hnofit⟩ := h7 m rest hm
    rw [GetMessages_normalOnly env self buffer symkey true now hq (Or.inr hstop)]
    refine ⟨?_, ?_, ?_, h6⟩
    · rw [hrep, hApp] at hnofit
      simpa [GetSize, Nat.add_assoc] using hnofit
    · show (NormalPhase env self buffer symkey true).num = _
      rw [h4]; simp
    · show (NormalPhase env self buffer symkey true).buffer = _
      rw [h5, hApp]

/-- C12 (greedy batching), evaluated on the code with the example of the claim:
frame limit 200, three normal messages of 80 bytes whose type falls under the
`default` label, an empty entry buffer and `concatenate = true`.  The call
returns `(true, 2)`, the buffer holds 160 bytes and one message of 80 bytes
remains queued, as the claim says, but the counter of its class, `Default`,
reads 240, not 80: the two packed messages were not released.  With three
`RelayData` messages the same call leaves the `RelayData` counter at 80. -/
theorem GetMessages_batch_default_counter :
    (GetMessages ScenarioEnv (Run ScenarioEnv (ThreeNormalCalls (.Other 0))) [] 0 true
      0).success = true ∧
    (GetMessages ScenarioEnv (Run ScenarioEnv (ThreeNormalCalls (.Other 0))) [] 0 true
      0).num = 2 ∧
    GetSize (GetMessages ScenarioEnv (Run ScenarioEnv (ThreeNormalCalls (.Other 0))) [] 0 true
      0).buffer = 160 ∧
    (GetMessages ScenarioEnv (Run ScenarioEnv (ThreeNormalCalls (.Other 0))) [] 0 true
      0).queues.m_NormalQueue = [ZeroMessage (.Other 0) 80] ∧
    QueuedBytes .Default (GetMessages ScenarioEnv (Run ScenarioEnv (ThreeNormalCalls (.Other 0)))
      [] 0 true 0).queues = 80 ∧
    (GetMessages ScenarioEnv (Run ScenarioEnv (ThreeNormalCalls (.Other 0))) [] 0 true
      0).queues.m_RateLimits.current .Default = 240 ∧
    (GetMessages ScenarioEnv (Run ScenarioEnv (ThreeNormalCalls .RelayData)) [] 0 true
      0).queues.m_RateLimits.current .RelayData = 80 := by
  decide

end QuantumGate
